import Mathlib

/-! EMCM: translation engine, rule file loading and server start/stop.

A shallow embedding of `src/EMCM.go`:

* `translateLog` (lines 211-224) with the Go library calls it makes
  (`regexp.MustCompile`, `FindStringSubmatch`, `fmt.Sprintf`, `strings.ReplaceAll`);
* `loadTranslationDict` (lines 182-209) with `strings.SplitN` and the `translationMap` map;
* `startServer` (lines 405-503) and `stopServer` (lines 505-515) with the `runningServers`
  registry.

Go strings are modelled as lists of code points (`Str`).  Every separator and placeholder
the program searches for (`#`, a space, `$i`) is ASCII, so searching code points agrees
with Go's byte search on valid UTF-8 text.  Go maps are association lists with pairwise
distinct keys; a `range` over a map visits its entries in an arbitrary order, so functions
that range over a map take the visiting order as their argument.
-/

namespace EMCM

/-- Go `string`, as its sequence of code points. -/
abbrev Str := List Char

/-! ## The Go `strings` and `fmt` functions used by the program -/

/-- The text before and after the first occurrence of `sep` in `s` (`strings.Index`
followed by the two slices `s[:m]` and `s[m+len(sep):]`); `none` when `sep` does not
occur.  Used with a non-empty `sep` only. -/
def cut (sep : Str) : Str → Option (Str × Str)
  | [] => none
  | c :: cs =>
    if sep.isPrefixOf (c :: cs) then some ([], (c :: cs).drop sep.length)
    else
      match cut sep cs with
      | some (a, b) => some (c :: a, b)
      | none => none

/-- The replacement loop of `strings.Replace` for a non-empty `old`: at most `fuel`
occurrences are replaced, left to right and without overlap. -/
def replaceLoop (old new : Str) : Nat → Str → Str
  | 0, s => s
  | fuel + 1, s =>
    match cut old s with
    | some (a, b) => a ++ new ++ replaceLoop old new fuel b
    | none => s

/-- Go `strings.ReplaceAll(s, old, new)`.  With an empty `old` Go inserts `new` before
every code point and at the end. -/
def ReplaceAll (s old new : Str) : Str :=
  if old = new then s
  else if old = [] then new ++ s.flatMap (fun c => c :: new)
  else replaceLoop old new s.length s

/-- The loop of `strings.genSplit` for a non-empty separator: at most `k` cuts. -/
def splitLoop (sep : Str) : Nat → Str → List Str
  | 0, s => [s]
  | k + 1, s =>
    match cut sep s with
    | some (a, b) => a :: splitLoop sep k b
    | none => [s]

/-- Go `strings.explode`: at most `n` pieces of one code point, the last piece holding
the rest. -/
def explode : Nat → Str → List Str
  | _, [] => []
  | 0, _ :: _ => []
  | 1, c :: cs => [c :: cs]
  | k + 2, c :: cs => [c] :: explode (k + 1) cs

/-- Go `strings.SplitN(s, sep, n)`. -/
def SplitN (s sep : Str) (n : Int) : List Str :=
  if n = 0 then []
  else if sep = [] then explode (if n < 0 then s.length else n.toNat) s
  else splitLoop sep (if n < 0 then s.length else min (n.toNat - 1) s.length) s

/-- Go `strings.Split(s, sep)`, which is `genSplit(s, sep, 0, -1)`. -/
def Split (s sep : Str) : List Str := SplitN s sep (-1)

/-- The verb `%d` of `fmt.Sprintf` on a Go `int`. -/
def fmtInt (i : Int) : Str :=
  if i < 0 then '-' :: Nat.toDigits 10 i.natAbs else Nat.toDigits 10 i.natAbs

/-! ## Go maps -/

/-- Map lookup `m[k]` with the `ok` flag. -/
def mapGet {β : Type} : List (Str × β) → Str → Option β
  | [], _ => none
  | (k1, v) :: rest, k => if k1 = k then some v else mapGet rest k

/-- Map assignment `m[k] = v`: the value of an existing key is replaced, a new key adds
an entry. -/
def mapSet {β : Type} : List (Str × β) → Str → β → List (Str × β)
  | [], k, v => [(k, v)]
  | (k1, v1) :: rest, k, v =>
    if k1 = k then (k, v) :: rest else (k1, v1) :: mapSet rest k v

/-- Go `delete(m, k)`; deleting an absent key does nothing. -/
def mapDelete {β : Type} : List (Str × β) → Str → List (Str × β)
  | [], _ => []
  | (k1, v1) :: rest, k =>
    if k1 = k then mapDelete rest k else (k1, v1) :: mapDelete rest k

/-- The keys of a map, in the order of the association list. -/
def mapKeys {β : Type} : List (Str × β) → List Str
  | [] => []
  | (k, _) :: rest => k :: mapKeys rest

/-- The invariant of a Go map: no key occurs twice. -/
def KeysNodup {β : Type} (m : List (Str × β)) : Prop := (mapKeys m).Nodup

/-! ## The `regexp` package -/

/-- What `translateLog` uses of Go's `regexp` package.  The package is not part of the
repository, so the functions over it take it as a parameter. -/
structure RegexpLib where
  /-- Compiled expressions (`*regexp.Regexp`). -/
  Prog : Type
  /-- Result of `regexp.Compile`; `none` is an error, on which `regexp.MustCompile` panics. -/
  Compile : Str → Option Prog
  /-- Result of `(*Regexp).FindStringSubmatch`; `none` is the `nil` slice (no match), and a
  match is the whole match followed by the text of each capture group. -/
  FindStringSubmatch : Prog → Str → Option (List Str)

/-- The pattern is a valid regular expression: `regexp.Compile` returns no error. -/
@[reducible] def RegexpLib.Valid (L : RegexpLib) (pattern : Str) : Prop :=
  (L.Compile pattern).isSome = true

/-- The submatches of a pattern in a line: `FindStringSubmatch` of the compiled pattern,
`none` when the pattern does not compile or matches nowhere in the line. -/
def RegexpLib.submatch (L : RegexpLib) (pattern line : Str) : Option (List Str) :=
  match L.Compile pattern with
  | some prog => L.FindStringSubmatch prog line
  | none => none

/-- The pattern matches somewhere in the line. -/
@[reducible] def RegexpLib.Matches (L : RegexpLib) (pattern line : Str) : Prop :=
  (L.submatch pattern line).isSome = true

/-! ### A reference matcher

A model of the fragment of Go's regular expressions (RE2 syntax, leftmost-first matching,
greedy repetition) that the rule files below use: literals, `.`, escapes, bracket classes,
capture groups, alternation and `*`, `+`, `?`.  It instantiates `RegexpLib` where a rule
table is run on a concrete line; the general theorems hold for every `RegexpLib`.  Syntax
outside the fragment (anchors, counted or lazy repetition, flags) is not accepted by this
model and is used by no pattern below. -/

/-- Abstract syntax of the fragment. -/
inductive Re where
  | eps
  | lit (c : Char)
  | any
  | cls (neg : Bool) (rs : List (Char × Char))
  | cat (a b : Re)
  | alt (a b : Re)
  | star (r : Re)
  | plus (r : Re)
  | opt (r : Re)
  | grp (i : Nat) (r : Re)
deriving DecidableEq, Repr

/-- Entries of the parse stack: an expression (with a flag telling whether it just
received a repetition operator), an open parenthesis with its group number, a bar. -/
inductive Item where
  | re (r : Re) (rep : Bool)
  | lparen (i : Nat)
  | bar
deriving DecidableEq, Repr

/-- The Perl classes `\d`, `\w`, `\s` and their negations. -/
def perlClass : Char → Option (Bool × List (Char × Char))
  | 'd' => some (false, [('0', '9')])
  | 'D' => some (true, [('0', '9')])
  | 'w' => some (false, [('0', '9'), ('A', 'Z'), ('a', 'z'), ('_', '_')])
  | 'W' => some (true, [('0', '9'), ('A', 'Z'), ('a', 'z'), ('_', '_')])
  | 's' => some (false, [('\t', '\n'), ('\x0c', '\r'), (' ', ' ')])
  | 'S' => some (true, [('\t', '\n'), ('\x0c', '\r'), (' ', ' ')])
  | _ => none

/-- ASCII punctuation, which a backslash turns into a literal. -/
def isPunct (c : Char) : Bool :=
  c.val < 128 && !c.isAlphanum

/-- Metacharacters outside the fragment: `^`, `$` and the opening brace. -/
def outsideFragment (c : Char) : Bool :=
  c = '^' || c = '$' || c = Char.ofNat 123

/-- The items of a bracket class up to the closing bracket. -/
def parseClassItems : Str → List (Char × Char) → Option (List (Char × Char) × Str)
  | [], _ => none
  | ']' :: rest, acc => some (acc.reverse, rest)
  | '\\' :: c :: rest, acc =>
    match perlClass c with
    | some (false, rs) => parseClassItems rest (rs.reverse ++ acc)
    | some (true, _) => none
    | none => if isPunct c then parseClassItems rest ((c, c) :: acc) else none
  | a :: '-' :: ']' :: rest, acc => some ((('-', '-') :: (a, a) :: acc).reverse, rest)
  | a :: '-' :: b :: rest, acc =>
    if b = '\\' then none
    else if a.val ≤ b.val then parseClassItems rest ((a, b) :: acc) else none
  | a :: rest, acc => parseClassItems rest ((a, a) :: acc)

/-- A bracket class, read after its opening bracket. -/
def parseClass : Str → Option (Re × Str)
  | '^' :: ']' :: rest =>
    (parseClassItems rest [(']', ']')]).map fun (rs, r) => (.cls true rs, r)
  | '^' :: rest => (parseClassItems rest []).map fun (rs, r) => (.cls true rs, r)
  | ']' :: rest => (parseClassItems rest [(']', ']')]).map fun (rs, r) => (.cls false rs, r)
  | rest => (parseClassItems rest []).map fun (rs, r) => (.cls false rs, r)

/-- Concatenate the expressions above the nearest marker of the stack. -/
def collapseCat : List Item → Re → Re × List Item
  | .re r _ :: st, acc => collapseCat st (match acc with | .eps => r | _ => .cat r acc)
  | st, acc => (acc, st)

/-- Fold the alternatives separated by bars above the nearest open parenthesis. -/
def collapseAlt : List Item → Re → Re × List Item
  | .bar :: .re r _ :: st, acc => collapseAlt st (.alt r acc)
  | st, acc => (acc, st)

/-- A bar closes the current concatenation. -/
def pushBar (st : List Item) : List Item :=
  let (r, st1) := collapseCat st .eps
  .bar :: .re r false :: st1

/-- The expression above the nearest open parenthesis, and the stack below it. -/
def closeAll (st : List Item) : Re × List Item :=
  let (r, st1) := collapseCat st .eps
  collapseAlt st1 r

/-- The parser: one pass over the pattern with an operator stack; `n` counts the capture
groups opened so far.  `none` is a syntax error. -/
def parseLoop : Nat → Str → List Item → Nat → Option (Re × Nat)
  | 0, _, _, _ => none
  | _ + 1, [], st, n =>
    match closeAll st with
    | (r, []) => some (r, n)
    | _ => none
  | f + 1, '(' :: rest, st, n =>
    match rest with
    | '?' :: _ => none
    | _ => parseLoop f rest (.lparen (n + 1) :: st) (n + 1)
  | f + 1, ')' :: rest, st, n =>
    match closeAll st with
    | (r, .lparen i :: st1) => parseLoop f rest (.re (.grp i r) false :: st1) n
    | _ => none
  | f + 1, '|' :: rest, st, n => parseLoop f rest (pushBar st) n
  | f + 1, '*' :: rest, st, n =>
    match st with
    | .re r false :: st1 => parseLoop f rest (.re (.star r) true :: st1) n
    | _ => none
  | f + 1, '+' :: rest, st, n =>
    match st with
    | .re r false :: st1 => parseLoop f rest (.re (.plus r) true :: st1) n
    | _ => none
  | f + 1, '?' :: rest, st, n =>
    match st with
    | .re r false :: st1 => parseLoop f rest (.re (.opt r) true :: st1) n
    | _ => none
  | f + 1, '.' :: rest, st, n => parseLoop f rest (.re .any false :: st) n
  | f + 1, '[' :: rest, st, n =>
    match parseClass rest with
    | some (r, rest1) => parseLoop f rest1 (.re r false :: st) n
    | none => none
  | f + 1, '\\' :: c :: rest, st, n =>
    match perlClass c with
    | some (neg, rs) => parseLoop f rest (.re (.cls neg rs) false :: st) n
    | none => if isPunct c then parseLoop f rest (.re (.lit c) false :: st) n else none
  | _ + 1, ['\\'], _, _ => none
  | f + 1, c :: rest, st, n =>
    if outsideFragment c then none else parseLoop f rest (.re (.lit c) false :: st) n

/-- Parse a pattern into its expression and its number of capture groups. -/
def parse (p : Str) : Option (Re × Nat) := parseLoop (p.length + 1) p [] 0

/-- Membership of a code point in a list of ranges. -/
def inClass (rs : List (Char × Char)) (c : Char) : Bool :=
  rs.any fun (lo, hi) => lo.val ≤ c.val && c.val ≤ hi.val

/-- Number of constructors of an expression. -/
def Re.size : Re → Nat
  | .cat a b | .alt a b => a.size + b.size + 1
  | .star r | .plus r | .opt r | .grp _ r => r.size + 1
  | _ => 1

/-- The backtracking matcher, in continuation-passing style: `run fuel r s cs k` matches
`r` at the head of `s` and hands the rest of the input and the captures to `k`.
Alternatives are tried left to right and repetition is greedy, which is Go's
leftmost-first rule.  The fuel bounds the nesting depth and the number of iterations. -/
def run : Nat → Re → Str → List (Nat × Str) → (Str → List (Nat × Str) → Option (List (Nat × Str))) →
    Option (List (Nat × Str))
  | 0, _, _, _, _ => none
  | _ + 1, .eps, s, cs, k => k s cs
  | _ + 1, .lit c, s, cs, k =>
    match s with
    | x :: xs => if x = c then k xs cs else none
    | [] => none
  | _ + 1, .any, s, cs, k =>
    match s with
    | x :: xs => if x = '\n' then none else k xs cs
    | [] => none
  | _ + 1, .cls neg rs, s, cs, k =>
    match s with
    | x :: xs => if inClass rs x != neg then k xs cs else none
    | [] => none
  | f + 1, .cat a b, s, cs, k => run f a s cs fun s1 cs1 => run f b s1 cs1 k
  | f + 1, .alt a b, s, cs, k =>
    match run f a s cs k with
    | some r => some r
    | none => run f b s cs k
  | f + 1, .star r, s, cs, k =>
    match run f r s cs
      (fun s1 cs1 => if s1.length < s.length then run f (.star r) s1 cs1 k else none) with
    | some x => some x
    | none => k s cs
  | f + 1, .plus r, s, cs, k => run f r s cs fun s1 cs1 => run f (.star r) s1 cs1 k
  | f + 1, .opt r, s, cs, k =>
    match run f r s cs k with
    | some x => some x
    | none => k s cs
  | f + 1, .grp i r, s, cs, k =>
    run f r s cs fun s1 cs1 => k s1 ((i, s.take (s.length - s1.length)) :: cs1)

/-- Text of capture `i`; a group that took no part in the match gives the empty string. -/
def capOf (cs : List (Nat × Str)) (i : Nat) : Str :=
  match cs.lookup i with
  | some s => s
  | none => []

/-- Leftmost match: try every start offset of the line in order.  The result lists the
whole match and then the `n` capture groups. -/
def findAt (r : Re) (n : Nat) : Str → Option (List Str)
  | [] =>
    match run (2 * r.size + 2) r [] [] (fun _ cs => some ((0, []) :: cs)) with
    | some cs => some ((List.range (n + 1)).map fun i => capOf cs i)
    | none => none
  | c :: s =>
    match run (2 * r.size + s.length + 3) r (c :: s) []
      (fun s1 cs => some ((0, (c :: s).take ((c :: s).length - s1.length)) :: cs)) with
    | some cs => some ((List.range (n + 1)).map fun i => capOf cs i)
    | none => findAt r n s

/-- The reference matcher as a `RegexpLib`. -/
def goRegexp : RegexpLib where
  Prog := Re × Nat
  Compile := parse
  FindStringSubmatch := fun prog line => findAt prog.1 prog.2 line

/-! ## The translation engine -/

/-- Outcome of a Go function that either panics or returns. -/
inductive Run (α : Type) where
  | panic : Run α
  | ret : α → Run α
deriving DecidableEq, Repr

/-- The placeholder `fmt.Sprintf("$%d", i)`. -/
def placeholder (i : Nat) : Str := '$' :: Nat.toDigits 10 i

/-- The inner loop of `translateLog` (lines 216-219): for `i, match := range matches`, from
index `i` on, `result = strings.ReplaceAll(result, placeholder, match)`. -/
def substitute : Nat → List Str → Str → Str
  | _, [], result => result
  | i, m :: ms, result => substitute (i + 1) ms (ReplaceAll result (placeholder i) m)

/-- Go `translateLog` (lines 211-224), run over the rules of `translationMap` in the
order `visit` in which the `range` loop meets them.  `regexp.MustCompile` panics on a
pattern that does not compile. -/
def translateLog (L : RegexpLib) : List (Str × Str) → Str → Run Str
  | [], line => .ret line
  | (pattern, translation) :: rest, line =>
    match L.Compile pattern with
    | none => .panic
    | some re =>
      match L.FindStringSubmatch re line with
      | some submatches => .ret (substitute 0 submatches translation)
      | none => translateLog L rest line

/-- Spec wording of the substitution: one pass over the template in which every
placeholder, a dollar sign followed by the decimal digits of an index `i` of a capture
group, is replaced by group `i`, and all other text is copied.  `fuel` bounds the
number of steps. -/
def specExpand (groups : List Str) : Nat → Str → Str
  | 0, s => s
  | _, [] => []
  | fuel + 1, c :: cs =>
    if c = '$' then
      let digits := cs.takeWhile Char.isDigit
      let i := digits.foldl (fun n d => 10 * n + (d.toNat - 48)) 0
      if digits ≠ [] ∧ i < groups.length then
        groups.getD i [] ++ specExpand groups fuel (cs.dropWhile Char.isDigit)
      else c :: specExpand groups fuel cs
    else c :: specExpand groups fuel cs

/-! ## The rule file -/

/-- The default rule file written by `loadTranslationDict` (lines 185-188), as its lines. -/
def defaultDict : List Str :=
  ["Player [a-zA-Z0-9_]+ joined#玩家 $0 加入游戏".toList,
   "Done \\(\\d+\\.\\d+s\\)!#启动完成 (耗时 $0 秒)".toList,
   "Stopping server#正在停止服务器".toList,
   "Preparing spawn area: (\\d+)%#生成出生点区域: $1%".toList]

/-- Body of the scanner loop of `loadTranslationDict` (lines 203-207) for one line. -/
def loadLine (m : List (Str × Str)) (line : Str) : List (Str × Str) :=
  match SplitN line ['#'] 2 with
  | [pattern, translation] => mapSet m pattern translation
  | _ => m

/-- The scanner loop of `loadTranslationDict` over the lines `scanner.Text()` yields. -/
def loadLines (m : List (Str × Str)) (lines : List Str) : List (Str × Str) :=
  lines.foldl loadLine m

/-- The rule file as `loadTranslationDict` meets it: the lines the scanner yields when
the file exists, and whether `os.WriteFile` and `os.Open` succeed. -/
structure DictFile where
  lines : Option (List Str)
  canWrite : Bool
  canOpen : Bool

/-- Go `loadTranslationDict` (lines 182-209): seed the default file when none exists,
open the file, and add every `pattern#template` line to `translationMap`.  Returns the
file and the map after the call. -/
def loadTranslationDict (file : DictFile) (translationMap : List (Str × Str)) :
    DictFile × List (Str × Str) :=
  let file1 : DictFile :=
    match file.lines with
    | none => if file.canWrite then { file with lines := some defaultDict } else file
    | some _ => file
  match file1.lines with
  | none => (file1, translationMap)
  | some lines =>
    if file1.canOpen then (file1, loadLines translationMap lines)
    else (file1, translationMap)

/-! ## Server instances and the registry of running servers -/

/-- Go `ServerInstance` (lines 71-83). -/
structure ServerInstance where
  ID : Str
  Name : Str
  ServerType : Str
  MCVersion : Str
  CoreVersion : Str
  Path : Str
  JavaPath : Str
  Memory : Int
  JVMArgs : Str
  CreatedAt : Str
  UpdatedAt : Str
deriving DecidableEq, Repr

/-- The fields of Go `Config` (lines 85-92) that starting a server reads. -/
structure Config where
  JavaPath : Str
  DefaultMemory : Int
  ServerInstalls : List (Str × ServerInstance)
deriving DecidableEq, Repr

/-- A started `*exec.Cmd`: the program name given to `exec.Command`, the argument vector
`cmd.Args` (program first), the working directory, and the process it runs. -/
structure Cmd where
  Path : Str
  Args : List Str
  Dir : Str
  Pid : Nat
deriving DecidableEq, Repr

/-- What the operating system answers during one call of `startServer`: whether each
pipe opens, the process started by `cmd.Start()` (`none` is an error), the function
`filepath.Dir`, and the lines read from `os.Stdin` until its end. -/
structure Host where
  stdinPipe : Bool
  stdoutPipe : Bool
  stderrPipe : Bool
  start : Option Nat
  dir : Str → Str
  input : List Str

/-- Observable actions of `startServer` and `stopServer`. -/
inductive Effect where
  /-- Text printed on standard output. -/
  | print (s : Str)
  /-- The child process of a command was started. -/
  | spawn (cmd : Cmd)
  /-- Text written to the standard input of a process. -/
  | write (pid : Nat) (s : Str)
  /-- The call `Process.Signal(os.Interrupt)` on a process. -/
  | signal (pid : Nat)
  /-- The call `cmd.Wait()`. -/
  | wait (pid : Nat)
  /-- The call `log.Fatal`, which ends the managing process with status 1. -/
  | fatal
deriving DecidableEq, Repr

/-- How the part of `startServer` before registration (lines 405-457) ends. -/
inductive Launch where
  /-- No instance under the identifier (lines 407-410). -/
  | notFound
  /-- No Java path (lines 416-419). -/
  | noJava
  /-- One of the calls `log.Fatal(err)` (lines 441, 446, 451, 455). -/
  | fatal
  /-- The child runs. -/
  | started (cmd : Cmd)
deriving DecidableEq, Repr

/-- The argument vector built by `startServer` (lines 421-434). -/
def serverArgs (server : ServerInstance) : List Str :=
  let memory := fmtInt server.Memory ++ "M".toList
  let args := ["-Xms".toList ++ memory, "-Xmx".toList ++ memory, "-XX:+UseG1GC".toList,
    "-jar".toList, server.Path, "nogui".toList]
  if server.JVMArgs ≠ [] then args ++ Split server.JVMArgs [' '] else args

/-- The Java path `startServer` uses (lines 412-415): the instance's own path, or the
path of the configuration when the instance has none. -/
def resolveJava (config : Config) (server : ServerInstance) : Str :=
  if server.JavaPath = [] then config.JavaPath else server.JavaPath

/-- Lines 405-457 of `startServer`: find the instance, resolve the Java path, build the
command, open the three pipes and start the child. -/
def launch (config : Config) (host : Host) (serverID : Str) : Launch × List Effect :=
  match mapGet config.ServerInstalls serverID with
  | none => (.notFound, [.print ("找不到服务器实例: ".toList ++ serverID ++ "\n".toList)])
  | some server =>
    let javaPath := resolveJava config server
    if javaPath = [] then (.noJava, [.print "未找到Java环境，请先配置Java路径\n".toList])
    else if !host.stdinPipe then (.fatal, [.fatal])
    else if !host.stdoutPipe then (.fatal, [.fatal])
    else if !host.stderrPipe then (.fatal, [.fatal])
    else
      match host.start with
      | none => (.fatal, [.fatal])
      | some pid =>
        let cmd : Cmd :=
          { Path := javaPath, Args := javaPath :: serverArgs server,
            Dir := host.dir server.Path, Pid := pid }
        (.started cmd, [.spawn cmd])

/-- Whether a code point equals the ASCII lower-case letter `t` under Unicode simple case
folding, as `strings.EqualFold` compares: the letter, its capital, and for `s` and `k`
the long s (U+017F) and the Kelvin sign (U+212A). -/
def foldsTo (t c : Char) : Bool :=
  c = t || c = t.toUpper || (t = 's' && c = Char.ofNat 0x17F) || (t = 'k' && c = Char.ofNat 0x212A)

/-- Go `strings.EqualFold(text, word)` for a word of ASCII lower-case letters. -/
def EqualFold : Str → Str → Bool
  | [], [] => true
  | c :: cs, t :: ts => foldsTo t c && EqualFold cs ts
  | _, _ => false

/-- The input loop of `startServer` (lines 484-493) over the lines read from `os.Stdin`. -/
def forwardInput (pid : Nat) : List Str → List Effect
  | [] => []
  | text :: rest =>
    if EqualFold text "stop".toList then [.write pid "stop\n".toList]
    else .write pid (text ++ "\n".toList) :: forwardInput pid rest

/-- State after a call: the registry `runningServers`, the actions performed, and
whether `log.Fatal` ended the managing process. -/
structure Outcome where
  runningServers : List (Str × Cmd)
  trace : List Effect
  exited : Bool
deriving DecidableEq, Repr

/-- The registry while the child runs, right after lines 459-461 of `startServer`;
`none` when the call ended before starting a child. -/
def registered (config : Config) (host : Host) (runningServers : List (Str × Cmd))
    (serverID : Str) : Option (List (Str × Cmd)) :=
  match (launch config host serverID).1 with
  | .started cmd => some (mapSet runningServers serverID cmd)
  | _ => none

/-- The two messages of `startServer` (lines 465, 502), `name` being the instance name. -/
def startingMessage (name : Str) : Str :=
  "\x1b[32m服务器 [".toList ++ name ++ "] 启动中... (输入 \x27stop\x27 停止服务器)\x1b[0m\n".toList

/-- The message printed when the server has stopped (line 502). -/
def stoppedMessage (name : Str) : Str :=
  "\x1b[32m服务器 [".toList ++ name ++ "] 已停止\x1b[0m\n".toList

/-- Name of the instance registered under an identifier (empty when there is none). -/
def instanceName (config : Config) (serverID : Str) : Str :=
  match mapGet config.ServerInstalls serverID with
  | some server => server.Name
  | none => []

/-- Go `startServer` (lines 405-503): launch, register the command under the identifier,
forward the input, wait for the child, delete the identifier from the registry.  The two
goroutines that print the translated output of the child run beside this sequence and
touch neither the registry nor the child's input. -/
def startServer (config : Config) (host : Host) (runningServers : List (Str × Cmd))
    (serverID : Str) : Outcome :=
  match launch config host serverID with
  | (.started cmd, es) =>
    { runningServers := mapDelete (mapSet runningServers serverID cmd) serverID
      trace := es ++ [.print (startingMessage (instanceName config serverID))]
        ++ forwardInput cmd.Pid host.input
        ++ [.wait cmd.Pid, .print (stoppedMessage (instanceName config serverID))]
      exited := false }
  | (.fatal, es) => { runningServers := runningServers, trace := es, exited := true }
  | (_, es) => { runningServers := runningServers, trace := es, exited := false }

/-- Go `stopServer` (lines 505-515). -/
def stopServer (runningServers : List (Str × Cmd)) (serverID : Str) : Outcome :=
  match mapGet runningServers serverID with
  | some cmd =>
    { runningServers := runningServers
      trace := [.signal cmd.Pid, .print ("已发送停止信号到服务器: ".toList ++ serverID ++ "\n".toList)]
      exited := false }
  | none =>
    { runningServers := runningServers
      trace := [.print ("未找到运行中的服务器: ".toList ++ serverID ++ "\n".toList)]
      exited := false }

/-! ## Vocabulary of the rule-file statements -/

/-- The line contains the separator `#`. -/
def hasHash (line : Str) : Bool := decide ('#' ∈ line)

/-- The text of a line before its first `#`. -/
def patternOf (line : Str) : Str := line.takeWhile (fun c => c != '#')

/-- The text of a line after its first `#`. -/
def templateOf (line : Str) : Str := (line.dropWhile (fun c => c != '#')).tail

/-! ## Sample data -/

/-- The rule table loaded from the default rule file. -/
def defaultRules : List (Str × Str) := loadLines [] defaultDict

/-- A rule for chat lines, and a chat line that mentions a price. -/
def chatRule : Str × Str := ("<\\w+> (.*)".toList, "聊天: $0".toList)

/-- A chat line whose message holds the text `$1`. -/
def chatLine : Str := "<Steve> selling for $1".toList

/-- A rule with ten capture groups whose template names the tenth. -/
def tenGroupRule : Str × Str := ("(a)(b)(c)(d)(e)(f)(g)(h)(i)(j)".toList, "[$10]".toList)

/-- The rule `Stopping server` of the default file and a second rule matching `server`. -/
def stopRule : Str × Str := ("Stopping server".toList, "正在停止服务器".toList)

/-- A rule whose pattern matches every line that contains `server`. -/
def serverRule : Str × Str := ("server".toList, "服务器".toList)

/-- A rule whose pattern is no regular expression (the parenthesis is never closed). -/
def brokenRule : Str × Str := ("Player (".toList, "玩家".toList)

/-- A sample instance. -/
def sampleServer : ServerInstance :=
  { ID := "server-1".toList, Name := "paper".toList, ServerType := "paper".toList,
    MCVersion := "1.20.1".toList, CoreVersion := "build196".toList,
    Path := ".emcm/servers/paper.jar".toList, JavaPath := [], Memory := 2048,
    JVMArgs := "-Dfile.encoding=UTF-8 -Xss4M".toList, CreatedAt := [], UpdatedAt := [] }

/-- A configuration holding the sample instance. -/
def sampleConfig : Config :=
  { JavaPath := "java".toList, DefaultMemory := 2048,
    ServerInstalls := [("server-1".toList, sampleServer)] }

/-- A host on which every pipe opens and the child starts as process `pid`; the caller
types `list` and then `STOP`. -/
def sampleHost (pid : Nat) : Host :=
  { stdinPipe := true, stdoutPipe := true, stderrPipe := true, start := some pid,
    dir := fun _ => ".emcm/servers".toList, input := ["list".toList, "STOP".toList] }

/-- The command that `startServer` builds for the sample instance on the sample host. -/
def sampleCmd (pid : Nat) : Cmd :=
  { Path := "java".toList,
    Args := ["java".toList, "-Xms2048M".toList, "-Xmx2048M".toList, "-XX:+UseG1GC".toList,
      "-jar".toList, ".emcm/servers/paper.jar".toList, "nogui".toList,
      "-Dfile.encoding=UTF-8".toList, "-Xss4M".toList],
    Dir := ".emcm/servers".toList, Pid := pid }

/-- A command registered earlier under `server-1`, running as process 100. -/
def oldCmd : Cmd :=
  { Path := "java".toList, Args := ["java".toList], Dir := [], Pid := 100 }

/-! ## The stop menu and the accesses to the registry -/

/-- The identifiers listed by `stopServerMenu` (lines 806-815): those met by the `range`
over `runningServers`, in visiting order, that have an instance in the configuration. -/
def menuServerIDs (config : Config) : List (Str × Cmd) → List Str
  | [] => []
  | (id, _) :: rest =>
    match mapGet config.ServerInstalls id with
    | some _ => id :: menuServerIDs config rest
    | none => menuServerIDs config rest

/-- The identifier that `stopServerMenu` (lines 794-835) passes to `stopServer`, `choice`
being the number read by `fmt.Scanln`; `none` when the menu returns without stopping
(empty registry, choice 0, choice out of range). -/
def stopServerMenuChoice (config : Config) (runningServers : List (Str × Cmd))
    (choice : Int) : Option Str :=
  if runningServers.length = 0 then none
  else if choice = 0 then none
  else if choice < 1 ∨ choice > (menuServerIDs config runningServers).length then none
  else (menuServerIDs config runningServers).get? (choice.toNat - 1)

/-- An operation on `serverMutex` or an access to the map `runningServers`, with the
source line of the access. -/
inductive Access where
  /-- The call `serverMutex.Lock()`. -/
  | lock
  /-- The call `serverMutex.Unlock()`. -/
  | unlock
  /-- A read of `runningServers` (lookup, `len`, `range`). -/
  | read (line : Nat)
  /-- A write of `runningServers` (assignment, `delete`). -/
  | write (line : Nat)
deriving DecidableEq, Repr

/-- The lock operations and registry accesses of `startServer`, in program order:
none on the paths that end before registration, and on the path that starts a child
the locked assignment of lines 459-461 and the locked `delete` of lines 498-500. -/
def startServerAccesses (config : Config) (host : Host) (serverID : Str) : List Access :=
  match (launch config host serverID).1 with
  | .started _ => [.lock, .write 460, .unlock, .lock, .write 499, .unlock]
  | _ => []

/-- The lock operations and registry accesses of `stopServer` (lines 506-509), the
deferred unlock running when the function returns. -/
def stopServerAccesses : List Access := [.lock, .read 509, .unlock]

/-- The lock operations and registry accesses of `stopServerMenu`: `len` at line 799,
then `len` at line 806 and the `range` at line 809, then those of `stopServer` when the
menu calls it. -/
def stopServerMenuAccesses (config : Config) (runningServers : List (Str × Cmd))
    (choice : Int) : List Access :=
  if runningServers.length = 0 then [.read 799]
  else
    [.read 799, .read 806, .read 809] ++
      (match stopServerMenuChoice config runningServers choice with
       | some _ => stopServerAccesses
       | none => [])

/-- Every read and write of the sequence happens while the lock is held; `held` tells
whether the lock is held at the start.  Locking a held lock or unlocking a free one is
not allowed either. -/
def underLock : Bool → List Access → Bool
  | _, [] => true
  | false, .lock :: rest => underLock true rest
  | true, .lock :: _ => false
  | true, .unlock :: rest => underLock false rest
  | false, .unlock :: _ => false
  | held, .read _ :: rest => held && underLock held rest
  | held, .write _ :: rest => held && underLock held rest

/-- The effect is a write to the standard input of a process. -/
def Effect.isWrite : Effect → Bool
  | .write _ _ => true
  | _ => false

/-! ## The instance store -/

/-- The identifier generated for a new instance (lines 588 and 1038):
`fmt.Sprintf("server-%d", len(config.ServerInstalls)+1)`. -/
def newServerID (config : Config) : Str :=
  "server-".toList ++ fmtInt (Int.ofNat config.ServerInstalls.length + 1)

/-- The update of the instance store by `createServerInstance` (lines 1037-1052) and by
the download command of `handleCLI` (lines 587-601): the new instance, whose other
fields come from the caller's input, gets the generated identifier and the default
memory and is stored under that identifier. -/
def createServerInstance (config : Config) (fields : ServerInstance) : Config :=
  let serverID := newServerID config
  { config with
    ServerInstalls := mapSet config.ServerInstalls serverID
      { fields with ID := serverID, Memory := config.DefaultMemory } }

/-- The deletion of an instance in `manageServersMenu` (line 953). -/
def deleteServerInstance (config : Config) (serverID : Str) : Config :=
  { config with ServerInstalls := mapDelete config.ServerInstalls serverID }

/-- The configurations reached from an empty instance store by creating instances and
deleting existing ones. -/
inductive Reachable : Config → Prop where
  | empty (javaPath : Str) (memory : Int) :
    Reachable { JavaPath := javaPath, DefaultMemory := memory, ServerInstalls := [] }
  | create (config : Config) (fields : ServerInstance) :
    Reachable config → Reachable (createServerInstance config fields)
  | delete (config : Config) (serverID : Str) :
    Reachable config → serverID ∈ mapKeys config.ServerInstalls →
    Reachable (deleteServerInstance config serverID)

/-! ## More sample data -/

/-- A rule with one capture group whose template names the groups 1, 2 and 10. -/
def progressRule : Str × Str :=
  ("Preparing spawn area: (\\d+)%".toList, "进度 $1% ($2) [$10]".toList)

/-- A rule added by the user, absent from the default rule file. -/
def customRule : Str × Str := ("Server started".toList, "服务器已启动".toList)

/-- A host on which the standard input pipe of the child cannot be opened. -/
def noPipeHost : Host :=
  { stdinPipe := false, stdoutPipe := true, stderrPipe := true, start := some 200,
    dir := fun _ => ".emcm/servers".toList, input := [] }

/-- A configuration without any Java path, holding the sample instance. -/
def noJavaConfig : Config :=
  { JavaPath := [], DefaultMemory := 2048,
    ServerInstalls := [("server-1".toList, sampleServer)] }

/-- The sample instance with a Java path of its own. -/
def ownJavaServer : ServerInstance :=
  { sampleServer with JavaPath := "/opt/jdk17/bin/java".toList }

/-- A configuration with the default path `java`, holding the instance with its own path. -/
def ownJavaConfig : Config :=
  { JavaPath := "java".toList, DefaultMemory := 2048,
    ServerInstalls := [("server-1".toList, ownJavaServer)] }

/-- An empty configuration. -/
def emptyConfig : Config := { JavaPath := "java".toList, DefaultMemory := 2048, ServerInstalls := [] }

/-- The store after creating two instances and deleting the first. -/
def storeAfterDelete : Config :=
  deleteServerInstance
    (createServerInstance (createServerInstance emptyConfig sampleServer)
      { sampleServer with Name := "forge".toList })
    "server-1".toList

/-! ## Lemmas on the string functions -/

theorem cut_singleton_none (c : Char) (s : Str) (h : c ∉ s) : cut [c] s = none := by
  induction s with
  | nil => rfl
  | cons x xs ih =>
    have hx : c ≠ x := fun e => h (e ▸ List.mem_cons_self _ _)
    have hxs : c ∉ xs := fun e => h (List.mem_cons_of_mem _ e)
    simp [cut, List.isPrefixOf, hx, ih hxs]

theorem cut_singleton_append (c : Char) (p t : Str) (h : c ∉ p) :
    cut [c] (p ++ c :: t) = some (p, t) := by
  induction p with
  | nil => simp [cut, List.isPrefixOf]
  | cons x xs ih =>
    have hx : c ≠ x := fun e => h (e ▸ List.mem_cons_self _ _)
    have hxs : c ∉ xs := fun e => h (List.mem_cons_of_mem _ e)
    simp [cut, List.isPrefixOf, hx, ih hxs]

theorem cut_length (sep s a b : Str) (h : cut sep s = some (a, b)) :
    a.length + sep.length + b.length = s.length := by
  induction s generalizing a with
  | nil => simp [cut] at h
  | cons x xs ih =>
    rw [cut] at h
    by_cases hp : List.isPrefixOf sep (x :: xs) = true
    · simp only [hp, if_true, Option.some.injEq, Prod.mk.injEq] at h
      obtain ⟨rfl, rfl⟩ := h
      have hle := (List.isPrefixOf_iff_prefix.1 hp).length_le
      simp only [List.length_nil, List.length_drop, List.length_cons] at hle ⊢
      omega
    · simp only [hp, if_false] at h
      cases hc : cut sep xs with
      | none => simp [hc] at h
      | some ab =>
        obtain ⟨a1, b1⟩ := ab
        simp only [hc, Option.some.injEq, Prod.mk.injEq] at h
        obtain ⟨rfl, rfl⟩ := h
        have := ih a1 hc
        simp only [List.length_cons]
        omega

/-- The fuel `s.length` of `ReplaceAll` is enough: more fuel gives the same result. -/
theorem replaceLoop_fuel (old new : Str) (hold : old ≠ []) (k : Nat) (s : Str)
    (h : s.length ≤ k) : replaceLoop old new k s = replaceLoop old new s.length s := by
  induction k using Nat.strong_induction_on generalizing s with
  | _ k ih =>
    cases k with
    | zero =>
      have hs : s = [] := List.length_eq_zero.1 (Nat.le_zero.1 h)
      subst hs; rfl
    | succ k =>
      cases s with
      | nil => simp [replaceLoop, cut]
      | cons x xs =>
        simp only [replaceLoop, List.length_cons]
        cases hc : cut old (x :: xs) with
        | none => rfl
        | some ab =>
          obtain ⟨a, b⟩ := ab
          have hlen := cut_length old (x :: xs) a b hc
          have hpos : 0 < old.length := List.length_pos.2 hold
          simp only [List.length_cons] at hlen h
          have hb1 : b.length ≤ k := by omega
          have hb2 : b.length ≤ xs.length := by omega
          simp only
          rw [ih k (Nat.lt_succ_self k) b hb1]
          by_cases hx : xs.length = k
          · rw [hx, ih k (Nat.lt_succ_self k) b hb1]
          · rw [ih xs.length (by omega) b hb2]

theorem SplitN_hash_with (p t : Str) (h : '#' ∉ p) : SplitN (p ++ '#' :: t) ['#'] 2 = [p, t] := by
  have hlen : min 1 (p ++ '#' :: t).length = 1 := by
    simp only [List.length_append, List.length_cons]; omega
  have h2 : min ((2 : Int).toNat - 1) (p ++ '#' :: t).length = 1 := hlen
  simp only [SplitN, OfNat.ofNat_ne_zero, if_false, List.cons_ne_nil, h2, splitLoop,
    cut_singleton_append '#' p t h]

theorem SplitN_hash_without (line : Str) (h : '#' ∉ line) : SplitN line ['#'] 2 = [line] := by
  simp only [SplitN, OfNat.ofNat_ne_zero, if_false, List.cons_ne_nil]
  have hn : ¬ ((2 : Int) < 0) := by decide
  simp only [hn, if_false]
  cases hk : min ((2 : Int).toNat - 1) line.length with
  | zero => rfl
  | succ k => simp [splitLoop, cut_singleton_none '#' line h]

theorem line_eq_pattern_template (line : Str) (h : hasHash line = true) :
    line = patternOf line ++ '#' :: templateOf line ∧ '#' ∉ patternOf line := by
  have hmem : '#' ∈ line := by simpa [hasHash] using h
  constructor
  · induction line with
    | nil => simp at hmem
    | cons x xs ih =>
      by_cases hx : x = '#'
      · subst hx; simp [patternOf, templateOf, List.takeWhile, List.dropWhile]
      · have hm : '#' ∈ xs := by
          rcases List.mem_cons.1 hmem with e | e
          · exact absurd e.symm hx
          · exact e
        have ih1 := ih (by simpa [hasHash] using hm) hm
        have hb : (x != '#') = true := by simp [hx]
        simp only [patternOf, templateOf] at ih1 ⊢
        simp only [List.takeWhile, List.dropWhile, hb, List.cons_append]
        rw [← ih1]
  · intro hp
    have := List.mem_takeWhile_imp hp
    simp at this

/-! ## Lemmas on maps -/

theorem mapGet_mapSet_self {β : Type} (m : List (Str × β)) (k : Str) (v : β) :
    mapGet (mapSet m k v) k = some v := by
  induction m with
  | nil => simp [mapSet, mapGet]
  | cons e rest ih =>
    obtain ⟨k1, v1⟩ := e
    by_cases hk : k1 = k
    · simp [mapSet, mapGet, hk]
    · simp [mapSet, mapGet, hk, ih]

theorem mapGet_mapSet_other {β : Type} (m : List (Str × β)) (k k2 : Str) (v : β) (h : k2 ≠ k) :
    mapGet (mapSet m k v) k2 = mapGet m k2 := by
  induction m with
  | nil => simp [mapSet, mapGet, Ne.symm h]
  | cons e rest ih =>
    obtain ⟨k1, v1⟩ := e
    by_cases hk : k1 = k
    · subst hk
      simp [mapSet, mapGet, Ne.symm h]
    · by_cases hk2 : k1 = k2
      · subst hk2
        simp [mapSet, mapGet, hk]
      · simp [mapSet, mapGet, hk, hk2, ih]

theorem mem_keys_mapSet {β : Type} (m : List (Str × β)) (k k2 : Str) (v : β) :
    k2 ∈ mapKeys (mapSet m k v) ↔ k2 ∈ mapKeys m ∨ k2 = k := by
  induction m with
  | nil => simp [mapSet, mapKeys]
  | cons e rest ih =>
    obtain ⟨k1, v1⟩ := e
    by_cases hk : k1 = k
    · subst hk
      simp only [mapSet, if_true, mapKeys, List.mem_cons]
      tauto
    · simp only [mapSet, hk, if_false, mapKeys, List.mem_cons, ih]
      tauto

theorem keysNodup_mapSet {β : Type} (m : List (Str × β)) (k : Str) (v : β)
    (h : KeysNodup m) : KeysNodup (mapSet m k v) := by
  induction m with
  | nil => simp [mapSet, KeysNodup, mapKeys]
  | cons e rest ih =>
    obtain ⟨k1, v1⟩ := e
    simp only [KeysNodup, mapKeys, List.nodup_cons] at h
    by_cases hk : k1 = k
    · subst hk
      simpa [mapSet, KeysNodup, mapKeys] using h
    · simp only [mapSet, hk, if_false, KeysNodup, mapKeys, List.nodup_cons]
      refine ⟨?_, ih h.2⟩
      intro hm
      rcases (mem_keys_mapSet rest k k1 v).1 hm with e | e
      · exact h.1 e
      · exact hk e

theorem mapGet_mapDelete_self {β : Type} (m : List (Str × β)) (k : Str) :
    mapGet (mapDelete m k) k = none := by
  induction m with
  | nil => simp [mapDelete, mapGet]
  | cons e rest ih =>
    obtain ⟨k1, v1⟩ := e
    by_cases hk : k1 = k
    · simp [mapDelete, hk, ih]
    · simp [mapDelete, mapGet, hk, ih]

theorem mapGet_mapDelete_other {β : Type} (m : List (Str × β)) (k k2 : Str) (h : k2 ≠ k) :
    mapGet (mapDelete m k) k2 = mapGet m k2 := by
  induction m with
  | nil => simp [mapDelete, mapGet]
  | cons e rest ih =>
    obtain ⟨k1, v1⟩ := e
    by_cases hk : k1 = k
    · subst hk
      simp [mapDelete, mapGet, Ne.symm h, ih]
    · by_cases hk2 : k1 = k2
      · subst hk2
        simp [mapDelete, mapGet, hk]
      · simp [mapDelete, mapGet, hk, hk2, ih]

/-! ## Loading the rule file -/

theorem loadLine_of_hasHash (m : List (Str × Str)) (line : Str) (h : hasHash line = true) :
    loadLine m line = mapSet m (patternOf line) (templateOf line) := by
  obtain ⟨h1, h2⟩ := line_eq_pattern_template line h
  have h3 := SplitN_hash_with (patternOf line) (templateOf line) h2
  rw [← h1] at h3
  simp [loadLine, h3]

theorem loadLine_of_not_hasHash (m : List (Str × Str)) (line : Str) (h : hasHash line = false) :
    loadLine m line = m := by
  have hmem : '#' ∉ line := by simpa [hasHash] using h
  simp [loadLine, SplitN_hash_without line hmem]

theorem keysNodup_loadLines (m : List (Str × Str)) (lines : List Str) (h : KeysNodup m) :
    KeysNodup (loadLines m lines) := by
  induction lines generalizing m with
  | nil => exact h
  | cons line rest ih =>
    have hstep : loadLines m (line :: rest) = loadLines (loadLine m line) rest := rfl
    rw [hstep]
    apply ih
    cases hh : hasHash line with
    | true => rw [loadLine_of_hasHash m line hh]; exact keysNodup_mapSet m _ _ h
    | false => rw [loadLine_of_not_hasHash m line hh]; exact h

/-! ## The translation engine -/

theorem translateLog_cons_skip (L : RegexpLib) (p t : Str) (rest : List (Str × Str)) (line : Str)
    (hv : L.Valid p) (hn : L.submatch p line = none) :
    translateLog L ((p, t) :: rest) line = translateLog L rest line := by
  cases hc : L.Compile p with
  | none => simp [RegexpLib.Valid, hc] at hv
  | some prog =>
    simp only [RegexpLib.submatch, hc] at hn
    simp [translateLog, hc, hn]

theorem translateLog_cons_match (L : RegexpLib) (p t : Str) (rest : List (Str × Str))
    (line : Str) (ms : List Str) (hm : L.submatch p line = some ms) :
    translateLog L ((p, t) :: rest) line = .ret (substitute 0 ms t) := by
  cases hc : L.Compile p with
  | none => simp [RegexpLib.submatch, hc] at hm
  | some prog =>
    simp only [RegexpLib.submatch, hc] at hm
    simp [translateLog, hc, hm]

theorem translateLog_cons_invalid (L : RegexpLib) (p t : Str) (rest : List (Str × Str))
    (line : Str) (hc : L.Compile p = none) :
    translateLog L ((p, t) :: rest) line = .panic := by
  simp [translateLog, hc]

theorem translateLog_no_match (L : RegexpLib) (visit : List (Str × Str)) (line : Str)
    (h : ∀ r ∈ visit, L.Valid r.1 ∧ L.submatch r.1 line = none) :
    translateLog L visit line = .ret line := by
  induction visit with
  | nil => rfl
  | cons r rest ih =>
    obtain ⟨p, t⟩ := r
    have h1 := h (p, t) (List.mem_cons_self _ _)
    rw [translateLog_cons_skip L p t rest line h1.1 h1.2]
    exact ih fun r hr => h r (List.mem_cons_of_mem _ hr)

theorem translateLog_not_matches (L : RegexpLib) (visit : List (Str × Str)) (line : Str)
    (hv : ∀ r ∈ visit, L.Valid r.1) (hn : ∀ r ∈ visit, ¬ L.Matches r.1 line) :
    translateLog L visit line = .ret line := by
  apply translateLog_no_match
  intro r hr
  refine ⟨hv r hr, ?_⟩
  have := hn r hr
  cases hs : L.submatch r.1 line with
  | none => rfl
  | some ms => simp [RegexpLib.Matches, hs] at this

theorem translateLog_unique_match (L : RegexpLib) (visit : List (Str × Str)) (line : Str)
    (r : Str × Str) (hv : ∀ q ∈ visit, L.Valid q.1) (hr : r ∈ visit) (hm : L.Matches r.1 line)
    (hu : ∀ q ∈ visit, L.Matches q.1 line → q = r) :
    translateLog L visit line = translateLog L [r] line := by
  induction visit with
  | nil => simp at hr
  | cons q rest ih =>
    obtain ⟨p, t⟩ := q
    cases hs : L.submatch p line with
    | some ms =>
      have hq : (p, t) = r := hu (p, t) (List.mem_cons_self _ _) (by simp [RegexpLib.Matches, hs])
      subst hq
      rw [translateLog_cons_match L p t rest line ms hs, translateLog_cons_match L p t [] line ms hs]
    | none =>
      rw [translateLog_cons_skip L p t rest line (hv (p, t) (List.mem_cons_self _ _)) hs]
      have hr2 : r ∈ rest := by
        rcases List.mem_cons.1 hr with e | e
        · subst e
          simp [RegexpLib.Matches, hs] at hm
        · exact e
      exact ih (fun q hq => hv q (List.mem_cons_of_mem _ hq)) hr2
        (fun q hq => hu q (List.mem_cons_of_mem _ hq))

theorem translateLog_panic_iff (L : RegexpLib) (visit : List (Str × Str)) (line : Str) :
    translateLog L visit line = .panic ↔
      ∃ pre p t post, visit = pre ++ (p, t) :: post ∧ L.Compile p = none ∧
        ∀ r ∈ pre, L.Valid r.1 ∧ L.submatch r.1 line = none := by
  induction visit with
  | nil =>
    constructor
    · intro h; simp [translateLog] at h
    · rintro ⟨pre, p, t, post, h, _⟩
      simp at h
  | cons q rest ih =>
    obtain ⟨p, t⟩ := q
    cases hc : L.Compile p with
    | none =>
      constructor
      · intro _
        exact ⟨[], p, t, rest, rfl, hc, by simp⟩
      · intro _
        exact translateLog_cons_invalid L p t rest line hc
    | some prog =>
      have hv : L.Valid p := by simp [RegexpLib.Valid, hc]
      cases hs : L.submatch p line with
      | some ms =>
        rw [translateLog_cons_match L p t rest line ms hs]
        constructor
        · intro h; cases h
        · rintro ⟨pre, p1, t1, post, h, hc1, hpre⟩
          cases pre with
          | nil =>
            simp only [List.nil_append, List.cons.injEq, Prod.mk.injEq] at h
            obtain ⟨⟨rfl, _⟩, _⟩ := h
            simp [hc] at hc1
          | cons a pre1 =>
            simp only [List.cons_append, List.cons.injEq] at h
            obtain ⟨rfl, _⟩ := h
            have := (hpre (p, t) (List.mem_cons_self _ _)).2
            simp [hs] at this
      | none =>
        rw [translateLog_cons_skip L p t rest line hv hs, ih]
        constructor
        · rintro ⟨pre, p1, t1, post, h, hc1, hpre⟩
          refine ⟨(p, t) :: pre, p1, t1, post, by simp [h], hc1, ?_⟩
          intro r hr
          rcases List.mem_cons.1 hr with e | e
          · subst e; exact ⟨hv, hs⟩
          · exact hpre r e
        · rintro ⟨pre, p1, t1, post, h, hc1, hpre⟩
          cases pre with
          | nil =>
            simp only [List.nil_append, List.cons.injEq, Prod.mk.injEq] at h
            obtain ⟨⟨rfl, _⟩, _⟩ := h
            simp [hc] at hc1
          | cons a pre1 =>
            simp only [List.cons_append, List.cons.injEq] at h
            obtain ⟨rfl, h2⟩ := h
            exact ⟨pre1, p1, t1, post, h2, hc1, fun r hr => hpre r (List.mem_cons_of_mem _ hr)⟩

theorem mapSet_new {β : Type} (m : List (Str × β)) (k : Str) (v : β) (h : k ∉ mapKeys m) :
    mapSet m k v = m ++ [(k, v)] := by
  induction m with
  | nil => rfl
  | cons e rest ih =>
    obtain ⟨k1, v1⟩ := e
    simp only [mapKeys, List.mem_cons, not_or] at h
    have hk : k1 ≠ k := fun e => h.1 e.symm
    simp [mapSet, hk, ih h.2]

theorem loadLines_eq_append (m : List (Str × Str)) (lines : List Str)
    (hnew : ∀ k ∈ (lines.filter hasHash).map patternOf, k ∉ mapKeys m)
    (hd : ((lines.filter hasHash).map patternOf).Nodup) :
    loadLines m lines =
      m ++ (lines.filter hasHash).map (fun l => (patternOf l, templateOf l)) := by
  induction lines generalizing m with
  | nil => simp [loadLines]
  | cons line rest ih =>
    have hstep : loadLines m (line :: rest) = loadLines (loadLine m line) rest := rfl
    rw [hstep]
    cases hh : hasHash line with
    | true =>
      simp only [List.filter_cons, hh, if_true, List.map_cons, List.nodup_cons] at hnew hd ⊢
      rw [loadLine_of_hasHash m line hh]
      rw [ih (mapSet m (patternOf line) (templateOf line)) ?_ hd.2]
      · rw [mapSet_new m _ _ (hnew _ (List.mem_cons_self _ _))]
        simp
      · intro k hk hm
        rcases (mem_keys_mapSet m _ k _).1 hm with e | e
        · exact hnew k (List.mem_cons_of_mem _ hk) e
        · exact hd.1 (e ▸ hk)
    | false =>
      simp only [List.filter_cons, hh, Bool.false_eq_true, if_false] at hnew hd ⊢
      rw [loadLine_of_not_hasHash m line hh]
      exact ih m hnew hd

/-! ## Claims on the translation engine -/

set_option maxRecDepth 100000 in
/-- C1, evaluation of the code where it departs from the claim.  On the example of the
specification `translateLog` returns the template with `$0` replaced by the whole match.
For the chat rule, whose whole match holds the text `$1`, the loop replaces `$0` first and
then rewrites the `$1` inside the text it has just inserted, so the result differs from
the template with each placeholder replaced by its group.  For a rule with ten groups the
placeholder `$10` is consumed as `$1` followed by `0`. -/
theorem C1_translateLog_rewrites_inserted_text :
    translateLog goRegexp
        [("Player [a-zA-Z0-9_]+ joined".toList, "玩家 $0 加入游戏".toList)]
        "Player Steve joined".toList
      = .ret "玩家 Player Steve joined 加入游戏".toList ∧
    goRegexp.submatch chatRule.1 chatLine = some [chatLine, "selling for $1".toList] ∧
    translateLog goRegexp [chatRule] chatLine
      = .ret "聊天: <Steve> selling for selling for $1".toList ∧
    specExpand [chatLine, "selling for $1".toList] chatRule.2.length chatRule.2
      = "聊天: <Steve> selling for $1".toList ∧
    (goRegexp.submatch tenGroupRule.1 "abcdefghij".toList).map List.length = some 11 ∧
    translateLog goRegexp [tenGroupRule] "abcdefghij".toList = .ret "[a0]".toList ∧
    (goRegexp.submatch tenGroupRule.1 "abcdefghij".toList).map
        (fun gs => specExpand gs tenGroupRule.2.length tenGroupRule.2)
      = some "[j]".toList := by
  decide

/-- C2 as stated fails: no pattern of the table matches the line (the only pattern is no
regular expression), yet `translateLog` does not return the line; it panics. -/
theorem C2_counterexample_invalid_pattern :
    (∀ r ∈ [brokenRule], ¬ goRegexp.Matches r.1 "hello".toList) ∧
    translateLog goRegexp [brokenRule] "hello".toList ≠ .ret "hello".toList ∧
    translateLog goRegexp [brokenRule] "hello".toList = .panic := by
  decide

/-- C2 amended: for every rule table whose patterns are all valid regular expressions
(the empty table included), in every visiting order, and every line in which no pattern
of the table matches, `translateLog` returns the line unchanged. -/
theorem C2_translateLog_returns_line_when_no_rule_matches (L : RegexpLib)
    (visit : List (Str × Str)) (line : Str)
    (hv : ∀ r ∈ visit, L.Valid r.1) (hn : ∀ r ∈ visit, ¬ L.Matches r.1 line) :
    translateLog L visit line = .ret line :=
  translateLog_not_matches L visit line hv hn

set_option maxRecDepth 100000 in
/-- C2 amended, at the default rule table and the empty table. -/
theorem C2_witness_default_rules :
    translateLog goRegexp defaultRules "Time elapsed: 42 ms".toList
      = .ret "Time elapsed: 42 ms".toList ∧
    translateLog goRegexp [] "Time elapsed: 42 ms".toList = .ret "Time elapsed: 42 ms".toList :=
  ⟨C2_translateLog_returns_line_when_no_rule_matches goRegexp defaultRules _
      (by decide) (by decide),
   C2_translateLog_returns_line_when_no_rule_matches goRegexp [] _ (by decide) (by decide)⟩

set_option maxRecDepth 100000 in
/-- C3 as stated fails: two visiting orders of one table with two rules that both match
the line give different translations. -/
theorem C3_counterexample_two_matching_rules :
    [stopRule, serverRule].Perm [serverRule, stopRule] ∧
    translateLog goRegexp [stopRule, serverRule] "Stopping server".toList
      = .ret "正在停止服务器".toList ∧
    translateLog goRegexp [serverRule, stopRule] "Stopping server".toList
      = .ret "服务器".toList ∧
    translateLog goRegexp [stopRule, serverRule] "Stopping server".toList
      ≠ translateLog goRegexp [serverRule, stopRule] "Stopping server".toList := by
  refine ⟨List.Perm.swap _ _ _, ?_, ?_, ?_⟩ <;> decide

/-- C3 amended: for every table whose patterns are all valid regular expressions and
every line that at most one rule of the table matches, any two visiting orders of the
table give the same result. -/
theorem C3_translateLog_order_independent_when_one_rule_matches (L : RegexpLib)
    (v1 v2 : List (Str × Str)) (line : Str) (hp : v1.Perm v2)
    (hv : ∀ r ∈ v1, L.Valid r.1)
    (hu : ∀ r1 ∈ v1, ∀ r2 ∈ v1, L.Matches r1.1 line → L.Matches r2.1 line → r1 = r2) :
    translateLog L v1 line = translateLog L v2 line := by
  by_cases hex : ∃ r ∈ v1, L.Matches r.1 line
  · obtain ⟨r, hr, hm⟩ := hex
    rw [translateLog_unique_match L v1 line r hv hr hm (fun q hq hqm => hu q hq r hr hqm hm)]
    rw [translateLog_unique_match L v2 line r (fun q hq => hv q (hp.mem_iff.2 hq))
      (hp.mem_iff.1 hr) hm
      (fun q hq hqm => hu q (hp.mem_iff.2 hq) r hr hqm hm)]
  · have hn : ∀ r ∈ v1, ¬ L.Matches r.1 line := fun r hr hm => hex ⟨r, hr, hm⟩
    rw [translateLog_not_matches L v1 line hv hn]
    rw [translateLog_not_matches L v2 line
      (fun q hq => hv q (hp.mem_iff.2 hq)) (fun q hq => hn q (hp.mem_iff.2 hq))]

set_option maxRecDepth 100000 in
/-- C3 amended, at the default rule table visited in file order and in reverse order, on
a line that only the first rule matches. -/
theorem C3_witness_default_rules :
    translateLog goRegexp defaultRules "Player Steve joined".toList
      = translateLog goRegexp defaultRules.reverse "Player Steve joined".toList :=
  C3_translateLog_order_independent_when_one_rule_matches goRegexp defaultRules
    defaultRules.reverse _ (List.reverse_perm defaultRules).symm (by decide) (by decide)

set_option maxRecDepth 100000 in
/-- C9 as stated fails: a table holding a rule whose pattern is no regular expression
makes `translateLog` panic.  When the visit meets that rule first the line `Stopping
server`, which the default rules translate, is lost; on a line that no rule matches the
panic occurs in every position of the rule. -/
theorem C9_counterexample_invalid_pattern_panics :
    ¬ goRegexp.Valid brokenRule.1 ∧
    translateLog goRegexp defaultRules "Stopping server".toList
      = .ret "正在停止服务器".toList ∧
    translateLog goRegexp (brokenRule :: defaultRules) "Stopping server".toList = .panic ∧
    translateLog goRegexp (brokenRule :: defaultRules) "Starting".toList = .panic ∧
    translateLog goRegexp (defaultRules ++ [brokenRule]) "Starting".toList = .panic := by
  decide

/-- C9 amended: for every rule table whose patterns are all valid regular expressions and
every line, `translateLog` does not panic and returns a string.  With a pattern that is
no regular expression in the table, `translateLog` panics exactly when the visit reaches
such a rule before any rule that matches the line: the rule is not skipped and the line
is not passed through. -/
theorem C9_translateLog_panics_exactly_at_invalid_pattern (L : RegexpLib)
    (visit : List (Str × Str)) (line : Str) :
    ((∀ r ∈ visit, L.Valid r.1) → ∃ s, translateLog L visit line = .ret s) ∧
    (translateLog L visit line = .panic ↔
      ∃ pre p t post, visit = pre ++ (p, t) :: post ∧ L.Compile p = none ∧
        ∀ r ∈ pre, L.Valid r.1 ∧ ¬ L.Matches r.1 line) := by
  have hiff : (translateLog L visit line = .panic ↔
      ∃ pre p t post, visit = pre ++ (p, t) :: post ∧ L.Compile p = none ∧
        ∀ r ∈ pre, L.Valid r.1 ∧ ¬ L.Matches r.1 line) := by
    rw [translateLog_panic_iff]
    constructor
    · rintro ⟨pre, p, t, post, h, hc, hpre⟩
      refine ⟨pre, p, t, post, h, hc, fun r hr => ⟨(hpre r hr).1, ?_⟩⟩
      simp [RegexpLib.Matches, (hpre r hr).2]
    · rintro ⟨pre, p, t, post, h, hc, hpre⟩
      refine ⟨pre, p, t, post, h, hc, fun r hr => ⟨(hpre r hr).1, ?_⟩⟩
      have := (hpre r hr).2
      cases hs : L.submatch r.1 line with
      | none => rfl
      | some ms => simp [RegexpLib.Matches, hs] at this
  refine ⟨?_, hiff⟩
  intro hv
  cases hres : translateLog L visit line with
  | ret s => exact ⟨s, rfl⟩
  | panic =>
    obtain ⟨pre, p, t, post, h, hc, _⟩ := hiff.1 hres
    have := hv (p, t) (by simp [h])
    simp [RegexpLib.Valid, hc] at this

set_option maxRecDepth 100000 in
/-- C9 amended, at the default rule table: every pattern compiles, so no line panics. -/
theorem C9_witness_default_rules :
    ∃ s, translateLog goRegexp defaultRules "Stopping server".toList = .ret s :=
  (C9_translateLog_panics_exactly_at_invalid_pattern goRegexp defaultRules
    "Stopping server".toList).1 (by decide)

/-! ## Claims on the rule file -/

/-- C7 as stated fails: a rule file of two lines of the form `pattern#template` that share
their pattern loads into a table of one rule. -/
theorem C7_counterexample_repeated_pattern :
    (["a#x".toList, "a#y".toList].filter hasHash).length = 2 ∧
    (loadTranslationDict ⟨some ["a#x".toList, "a#y".toList], true, true⟩ []).2.length = 1 ∧
    (loadTranslationDict ⟨some ["a#x".toList, "a#y".toList], true, true⟩ []).2
      = [("a".toList, "y".toList)] := by
  decide

/-- C7 amended: for every rule file that can be opened and whose lines containing `#`
have pairwise distinct patterns (the text before the first `#`), loading it into an empty
table yields exactly one rule per such line, namely its pattern and its template, in file
order; lines without `#` are skipped and do not change the count. -/
theorem C7_loadTranslationDict_one_rule_per_distinct_pattern (lines : List Str)
    (canWrite : Bool)
    (hd : ((lines.filter hasHash).map patternOf).Nodup) :
    (loadTranslationDict ⟨some lines, canWrite, true⟩ []).2
      = (lines.filter hasHash).map (fun l => (patternOf l, templateOf l)) ∧
    (loadTranslationDict ⟨some lines, canWrite, true⟩ []).2.length
      = (lines.filter hasHash).length ∧
    KeysNodup (loadTranslationDict ⟨some lines, canWrite, true⟩ []).2 := by
  have h1 : (loadTranslationDict ⟨some lines, canWrite, true⟩ []).2 = loadLines [] lines := by
    simp [loadTranslationDict]
  have h2 := loadLines_eq_append [] lines (by simp [mapKeys]) hd
  rw [h1]
  refine ⟨by simpa using h2, ?_, ?_⟩
  · rw [h2]; simp
  · exact keysNodup_loadLines [] lines (by simp [KeysNodup, mapKeys])

/-- C7 amended, at the default rule file followed by a comment line without `#`. -/
theorem C7_witness_default_file :
    (loadTranslationDict ⟨some (defaultDict ++ ["no separator here".toList]), true, true⟩ []).2.length
      = ((defaultDict ++ ["no separator here".toList]).filter hasHash).length :=
  (C7_loadTranslationDict_one_rule_per_distinct_pattern
    (defaultDict ++ ["no separator here".toList]) true (by decide)).2.1

/-- C8: for every line read from the rule file after the lines `before`, when the line
has the form `pattern#template` with no `#` in `pattern` (so the `#` is the first one, and
`template` may hold further `#`), `loadTranslationDict` records the rule with that pattern
and that template; when the line contains no `#` the table is the one obtained without
the line. -/
theorem C8_loadTranslationDict_splits_at_first_hash (m : List (Str × Str))
    (before : List Str) (canWrite : Bool) :
    (∀ pattern template : Str, '#' ∉ pattern →
      (loadTranslationDict ⟨some (before ++ [pattern ++ '#' :: template]), canWrite, true⟩ m).2
        = mapSet (loadTranslationDict ⟨some before, canWrite, true⟩ m).2 pattern template ∧
      mapGet
        (loadTranslationDict ⟨some (before ++ [pattern ++ '#' :: template]), canWrite, true⟩ m).2
        pattern = some template) ∧
    (∀ line : Str, '#' ∉ line →
      (loadTranslationDict ⟨some (before ++ [line]), canWrite, true⟩ m).2
        = (loadTranslationDict ⟨some before, canWrite, true⟩ m).2) := by
  have hstep : ∀ line : Str,
      (loadTranslationDict ⟨some (before ++ [line]), canWrite, true⟩ m).2
        = loadLine (loadTranslationDict ⟨some before, canWrite, true⟩ m).2 line := by
    intro line
    simp [loadTranslationDict, loadLines, List.foldl_append]
  constructor
  · intro pattern template hp
    have hl : loadLine (loadTranslationDict ⟨some before, canWrite, true⟩ m).2
        (pattern ++ '#' :: template)
        = mapSet (loadTranslationDict ⟨some before, canWrite, true⟩ m).2 pattern template := by
      simp [loadLine, SplitN_hash_with pattern template hp]
    rw [hstep, hl]
    exact ⟨rfl, mapGet_mapSet_self _ _ _⟩
  · intro line hl
    rw [hstep]
    simp [loadLine, SplitN_hash_without line hl]

/-- C8, at a line with two `#`: the pattern is `a` and the template keeps the second `#`;
and at a line without `#`. -/
theorem C8_witness_two_hashes :
    (loadTranslationDict ⟨some ([] ++ ["a".toList ++ '#' :: "b#c".toList]), true, true⟩ []).2
        = mapSet (loadTranslationDict ⟨some [], true, true⟩ []).2 "a".toList "b#c".toList ∧
    (loadTranslationDict ⟨some ([] ++ ["plain".toList]), true, true⟩ []).2
        = (loadTranslationDict ⟨some [], true, true⟩ []).2 :=
  ⟨((C8_loadTranslationDict_splits_at_first_hash [] [] true).1 "a".toList "b#c".toList
      (by decide)).1,
   (C8_loadTranslationDict_splits_at_first_hash [] [] true).2 "plain".toList (by decide)⟩

/-! ## Claims on starting and stopping servers -/

theorem launch_started (config : Config) (host : Host) (serverID : Str) (cmd : Cmd)
    (hl : (launch config host serverID).1 = .started cmd) :
    ∃ server pid, mapGet config.ServerInstalls serverID = some server ∧
      host.start = some pid ∧ resolveJava config server ≠ [] ∧
      cmd = { Path := resolveJava config server,
              Args := resolveJava config server :: serverArgs server,
              Dir := host.dir server.Path, Pid := pid } ∧
      launch config host serverID = (.started cmd, [.spawn cmd]) := by
  unfold launch at hl ⊢
  cases hm : mapGet config.ServerInstalls serverID with
  | none => simp [hm] at hl
  | some server =>
    simp only [hm] at hl ⊢
    by_cases hj : resolveJava config server = []
    · simp [hj] at hl
    · cases h1 : host.stdinPipe with
      | false => simp [hj, h1] at hl
      | true =>
        cases h2 : host.stdoutPipe with
        | false => simp [hj, h1, h2] at hl
        | true =>
          cases h3 : host.stderrPipe with
          | false => simp [hj, h1, h2, h3] at hl
          | true =>
            cases h4 : host.start with
            | none => simp [hj, h1, h2, h3, h4] at hl
            | some pid =>
              simp only [hj, h1, h2, h3, h4, if_false, Bool.not_true, Bool.false_eq_true,
                Launch.started.injEq] at hl
              subst hl
              exact ⟨server, pid, rfl, rfl, hj, rfl, by simp [hj]⟩

/-- C4 as stated fails: `server-1` is registered with the command of process 100, and a
start attempt for `server-1` spawns a second child (process 200) and stores its command
under `server-1` in place of the registered one; when that child has exited the entry is
deleted. -/
theorem C4_counterexample_registered_identifier :
    mapGet [("server-1".toList, oldCmd)] "server-1".toList = some oldCmd ∧
    Effect.spawn (sampleCmd 200) ∈
      (startServer sampleConfig (sampleHost 200) [("server-1".toList, oldCmd)]
        "server-1".toList).trace ∧
    registered sampleConfig (sampleHost 200) [("server-1".toList, oldCmd)] "server-1".toList
      = some [("server-1".toList, sampleCmd 200)] ∧
    sampleCmd 200 ≠ oldCmd ∧
    (startServer sampleConfig (sampleHost 200) [("server-1".toList, oldCmd)]
      "server-1".toList).runningServers = [] := by
  decide

/-- C4 amended: `startServer` does not consult the registry before it spawns.  For every
registry state and every identifier, present in the registry or not, whose instance
exists, has a Java path, and whose pipes and child start: the child is spawned, its
command is stored under the identifier (in place of a command registered before) while
every other entry is left as it was, the actions performed are those performed from an
empty registry, and after the child has exited the identifier is absent from the registry
and every other entry is still as it was. -/
theorem C4_startServer_registers_without_check (config : Config) (host : Host)
    (runningServers : List (Str × Cmd)) (serverID : Str) (cmd : Cmd)
    (hl : (launch config host serverID).1 = .started cmd) :
    Effect.spawn cmd ∈ (startServer config host runningServers serverID).trace ∧
    (∃ r, registered config host runningServers serverID = some r ∧
      mapGet r serverID = some cmd ∧
      ∀ k, k ≠ serverID → mapGet r k = mapGet runningServers k) ∧
    (startServer config host runningServers serverID).trace
      = (startServer config host [] serverID).trace ∧
    mapGet (startServer config host runningServers serverID).runningServers serverID = none ∧
    (∀ k, k ≠ serverID →
      mapGet (startServer config host runningServers serverID).runningServers k
        = mapGet runningServers k) := by
  obtain ⟨server, pid, _, _, _, _, hlaunch⟩ := launch_started config host serverID cmd hl
  refine ⟨?_, ⟨mapSet runningServers serverID cmd, ?_, mapGet_mapSet_self _ _ _,
    fun k hk => mapGet_mapSet_other _ _ _ _ hk⟩, ?_, ?_, ?_⟩
  · simp [startServer, hlaunch]
  · simp [registered, hl]
  · simp [startServer, hlaunch]
  · simp only [startServer, hlaunch]
    exact mapGet_mapDelete_self _ _
  · intro k hk
    simp only [startServer, hlaunch]
    rw [mapGet_mapDelete_other _ _ _ hk, mapGet_mapSet_other _ _ _ _ hk]

/-- C4 amended, at the sample instance started while `server-1` is registered. -/
theorem C4_witness_sample_start :
    mapGet (startServer sampleConfig (sampleHost 200) [("server-1".toList, oldCmd)]
      "server-1".toList).runningServers "server-1".toList = none :=
  (C4_startServer_registers_without_check sampleConfig (sampleHost 200)
    [("server-1".toList, oldCmd)] "server-1".toList (sampleCmd 200) (by decide)).2.2.2.1

/-- C5: for every registry state and every identifier absent from the registry,
`stopServer` leaves the registry unchanged, prints the message that no running server was
found, sends no signal to any process, and returns without ending the managing process. -/
theorem C5_stopServer_absent_identifier (runningServers : List (Str × Cmd)) (serverID : Str)
    (h : mapGet runningServers serverID = none) :
    (stopServer runningServers serverID).runningServers = runningServers ∧
    (stopServer runningServers serverID).trace
      = [.print ("未找到运行中的服务器: ".toList ++ serverID ++ "\n".toList)] ∧
    (∀ pid, Effect.signal pid ∉ (stopServer runningServers serverID).trace) ∧
    (stopServer runningServers serverID).exited = false := by
  simp [stopServer, h]

/-- C5, at the identifier `nonexistent` with `server-1` registered. -/
theorem C5_witness_nonexistent :
    (stopServer [("server-1".toList, oldCmd)] "nonexistent".toList).runningServers
      = [("server-1".toList, oldCmd)] :=
  (C5_stopServer_absent_identifier [("server-1".toList, oldCmd)] "nonexistent".toList
    (by decide)).1

/-- C6: for every registry state and every identifier registered with a command,
`stopServer` sends the interrupt signal to the process of that command and to no other
process, and leaves the registry as it was: the identifier is still registered with the
same command. -/
theorem C6_stopServer_registered_identifier (runningServers : List (Str × Cmd))
    (serverID : Str) (cmd : Cmd) (h : mapGet runningServers serverID = some cmd) :
    (stopServer runningServers serverID).trace
      = [.signal cmd.Pid, .print ("已发送停止信号到服务器: ".toList ++ serverID ++ "\n".toList)] ∧
    (∀ pid, Effect.signal pid ∈ (stopServer runningServers serverID).trace → pid = cmd.Pid) ∧
    (stopServer runningServers serverID).runningServers = runningServers ∧
    mapGet (stopServer runningServers serverID).runningServers serverID = some cmd := by
  simp [stopServer, h]

/-- C6, at `server-1` registered with the command of process 100. -/
theorem C6_witness_registered :
    (stopServer [("server-1".toList, oldCmd)] "server-1".toList).trace
      = [.signal oldCmd.Pid,
         .print ("已发送停止信号到服务器: ".toList ++ "server-1".toList ++ "\n".toList)] :=
  (C6_stopServer_registered_identifier [("server-1".toList, oldCmd)] "server-1".toList oldCmd
    (by decide)).1

/-! ## Claims on the runtime path, failed starts and the input loop -/

theorem launch_noJava (config : Config) (host : Host) (serverID : Str) (server : ServerInstance)
    (hs : mapGet config.ServerInstalls serverID = some server)
    (hj : resolveJava config server = []) :
    launch config host serverID
      = (.noJava, [.print "未找到Java环境，请先配置Java路径\n".toList]) := by
  simp [launch, hs, hj]

theorem launch_fatal (config : Config) (host : Host) (serverID : Str) (server : ServerInstance)
    (hs : mapGet config.ServerInstalls serverID = some server)
    (hj : resolveJava config server ≠ [])
    (hf : host.stdinPipe = false ∨ host.stdoutPipe = false ∨ host.stderrPipe = false ∨
      host.start = none) :
    launch config host serverID = (.fatal, [.fatal]) := by
  unfold launch
  simp only [hs, hj, if_false]
  cases h1 : host.stdinPipe with
  | false => simp
  | true =>
    cases h2 : host.stdoutPipe with
    | false => simp
    | true =>
      cases h3 : host.stderrPipe with
      | false => simp
      | true =>
        cases h4 : host.start with
        | none => simp
        | some pid => simp [h1, h2, h3, h4] at hf

theorem launch_resolved (config : Config) (host : Host) (serverID : Str)
    (server : ServerInstance) (javaPath : Str) (pid : Nat)
    (hs : mapGet config.ServerInstalls serverID = some server)
    (hr : resolveJava config server = javaPath) (hj : javaPath ≠ [])
    (h1 : host.stdinPipe = true) (h2 : host.stdoutPipe = true) (h3 : host.stderrPipe = true)
    (h4 : host.start = some pid) :
    launch config host serverID
      = (.started { Path := javaPath, Args := javaPath :: serverArgs server,
                    Dir := host.dir server.Path, Pid := pid },
         [.spawn { Path := javaPath, Args := javaPath :: serverArgs server,
                   Dir := host.dir server.Path, Pid := pid }]) := by
  subst hr
  simp [launch, hs, hj, h1, h2, h3, h4]

theorem startServer_resolved (config : Config) (host : Host)
    (runningServers : List (Str × Cmd)) (serverID : Str)
    (server : ServerInstance) (javaPath : Str) (pid : Nat)
    (hs : mapGet config.ServerInstalls serverID = some server)
    (hr : resolveJava config server = javaPath) (hj : javaPath ≠ [])
    (h1 : host.stdinPipe = true) (h2 : host.stdoutPipe = true) (h3 : host.stderrPipe = true)
    (h4 : host.start = some pid) :
    (startServer config host runningServers serverID).trace
      = Effect.spawn { Path := javaPath, Args := javaPath :: serverArgs server,
                       Dir := host.dir server.Path, Pid := pid }
        :: Effect.print (startingMessage server.Name)
        :: (forwardInput pid host.input
            ++ [Effect.wait pid, Effect.print (stoppedMessage server.Name)]) ∧
    (startServer config host runningServers serverID).exited = false ∧
    registered config host runningServers serverID
      = some (mapSet runningServers serverID
          { Path := javaPath, Args := javaPath :: serverArgs server,
            Dir := host.dir server.Path, Pid := pid }) := by
  have hl := launch_resolved config host serverID server javaPath pid hs hr hj h1 h2 h3 h4
  refine ⟨?_, ?_, ?_⟩
  · simp [startServer, hl, instanceName, hs]
  · simp [startServer, hl]
  · simp [registered, hl]

/-- C11: for every instance found in the instance store, `startServer` resolves the Java
path as the instance's own path when that is not empty and as the path of the
configuration otherwise.  With a resolved path (and pipes and child that start) the call
spawns exactly the command running that path, with it as first argument, registers it
while the child runs, and goes through the input loop and the wait.  When both paths are
empty the call prints that no Java environment was found and returns: nothing is spawned,
nothing is registered, the registry is unchanged and the managing process goes on. -/
theorem C11_startServer_resolves_runtime_path (config : Config) (host : Host)
    (runningServers : List (Str × Cmd)) (serverID : Str) (server : ServerInstance)
    (hs : mapGet config.ServerInstalls serverID = some server) :
    (∀ pid, server.JavaPath ≠ [] → host.stdinPipe = true → host.stdoutPipe = true →
      host.stderrPipe = true → host.start = some pid →
      (startServer config host runningServers serverID).trace
        = Effect.spawn { Path := server.JavaPath, Args := server.JavaPath :: serverArgs server,
                         Dir := host.dir server.Path, Pid := pid }
          :: Effect.print (startingMessage server.Name)
          :: (forwardInput pid host.input
              ++ [Effect.wait pid, Effect.print (stoppedMessage server.Name)]) ∧
      (startServer config host runningServers serverID).exited = false ∧
      registered config host runningServers serverID
        = some (mapSet runningServers serverID
            { Path := server.JavaPath, Args := server.JavaPath :: serverArgs server,
              Dir := host.dir server.Path, Pid := pid })) ∧
    (∀ pid, server.JavaPath = [] → config.JavaPath ≠ [] → host.stdinPipe = true →
      host.stdoutPipe = true → host.stderrPipe = true → host.start = some pid →
      (startServer config host runningServers serverID).trace
        = Effect.spawn { Path := config.JavaPath, Args := config.JavaPath :: serverArgs server,
                         Dir := host.dir server.Path, Pid := pid }
          :: Effect.print (startingMessage server.Name)
          :: (forwardInput pid host.input
              ++ [Effect.wait pid, Effect.print (stoppedMessage server.Name)]) ∧
      (startServer config host runningServers serverID).exited = false ∧
      registered config host runningServers serverID
        = some (mapSet runningServers serverID
            { Path := config.JavaPath, Args := config.JavaPath :: serverArgs server,
              Dir := host.dir server.Path, Pid := pid })) ∧
    (∀ cmd, (launch config host serverID).1 = .started cmd →
      cmd.Path = (if server.JavaPath = [] then config.JavaPath else server.JavaPath) ∧
      cmd.Path ≠ [] ∧
      cmd.Args.head? = some cmd.Path) ∧
    (server.JavaPath = [] → config.JavaPath = [] →
      startServer config host runningServers serverID
        = { runningServers := runningServers,
            trace := [.print "未找到Java环境，请先配置Java路径\n".toList],
            exited := false } ∧
      (∀ cmd, Effect.spawn cmd ∉ (startServer config host runningServers serverID).trace) ∧
      registered config host runningServers serverID = none) := by
  refine ⟨?_, ?_, ?_, ?_⟩
  · intro pid hne h1 h2 h3 h4
    exact startServer_resolved config host runningServers serverID server server.JavaPath pid hs
      (by simp [resolveJava, hne]) hne h1 h2 h3 h4
  · intro pid he hne h1 h2 h3 h4
    exact startServer_resolved config host runningServers serverID server config.JavaPath pid hs
      (by simp [resolveJava, he]) hne h1 h2 h3 h4
  · intro cmd hl
    obtain ⟨server1, pid, hs1, _, hj, hcmd, _⟩ := launch_started config host serverID cmd hl
    rw [hs] at hs1
    cases hs1
    rw [hcmd]
    exact ⟨rfl, hj, rfl⟩
  · intro h1 h2
    have hj : resolveJava config server = [] := by simp [resolveJava, h1, h2]
    have hl := launch_noJava config host serverID server hs hj
    have hst : startServer config host runningServers serverID
        = { runningServers := runningServers,
            trace := [.print "未找到Java环境，请先配置Java路径\n".toList],
            exited := false } := by
      simp [startServer, hl]
    refine ⟨hst, ?_, by simp [registered, hl]⟩
    intro cmd
    rw [hst]
    simp

/-- C11, at the three branches: the instance with its own Java path, the sample instance
under the default path `java`, and the sample instance with no path at all.  In the first
two the child is spawned as process 200 with the resolved path; in the third the call
returns after the message and the registered command is untouched. -/
theorem C11_witness_three_branches :
    ((startServer ownJavaConfig (sampleHost 200) [] "server-1".toList).trace
      = Effect.spawn { Path := ownJavaServer.JavaPath,
                       Args := ownJavaServer.JavaPath :: serverArgs ownJavaServer,
                       Dir := (sampleHost 200).dir ownJavaServer.Path, Pid := 200 }
        :: Effect.print (startingMessage ownJavaServer.Name)
        :: (forwardInput 200 (sampleHost 200).input
            ++ [Effect.wait 200, Effect.print (stoppedMessage ownJavaServer.Name)])) ∧
    ((startServer sampleConfig (sampleHost 200) [] "server-1".toList).trace
      = Effect.spawn { Path := sampleConfig.JavaPath,
                       Args := sampleConfig.JavaPath :: serverArgs sampleServer,
                       Dir := (sampleHost 200).dir sampleServer.Path, Pid := 200 }
        :: Effect.print (startingMessage sampleServer.Name)
        :: (forwardInput 200 (sampleHost 200).input
            ++ [Effect.wait 200, Effect.print (stoppedMessage sampleServer.Name)])) ∧
    (startServer noJavaConfig (sampleHost 200) [("server-1".toList, oldCmd)] "server-1".toList
      = { runningServers := [("server-1".toList, oldCmd)],
          trace := [.print "未找到Java环境，请先配置Java路径\n".toList],
          exited := false }) :=
  ⟨((C11_startServer_resolves_runtime_path ownJavaConfig (sampleHost 200) []
      "server-1".toList ownJavaServer (by decide)).1 200 (by decide) rfl rfl rfl rfl).1,
   ((C11_startServer_resolves_runtime_path sampleConfig (sampleHost 200) []
      "server-1".toList sampleServer (by decide)).2.1 200 (by decide) (by decide)
      rfl rfl rfl rfl).1,
   ((C11_startServer_resolves_runtime_path noJavaConfig (sampleHost 200)
      [("server-1".toList, oldCmd)] "server-1".toList sampleServer (by decide)).2.2.2
      (by decide) (by decide)).1⟩

/-- C12 as stated fails: when the standard input pipe of the child cannot be opened,
`startServer` does not return to its caller; it calls `log.Fatal`, which ends the
managing process. -/
theorem C12_counterexample_pipe_failure_exits :
    (startServer sampleConfig noPipeHost [] "server-1".toList).exited = true ∧
    (startServer sampleConfig noPipeHost [] "server-1".toList).trace = [.fatal] := by
  decide

/-- C12 amended: for every start attempt of an existing instance with a Java path in
which opening the stdin, stdout or stderr pipe fails or starting the child fails,
`startServer` calls `log.Fatal`, which ends the whole managing process instead of
returning to the caller; no child is spawned and the registry is left untouched (no entry
for the identifier is added). -/
theorem C12_startServer_failed_start_is_fatal (config : Config) (host : Host)
    (runningServers : List (Str × Cmd)) (serverID : Str) (server : ServerInstance)
    (hs : mapGet config.ServerInstalls serverID = some server)
    (hj : resolveJava config server ≠ [])
    (hf : host.stdinPipe = false ∨ host.stdoutPipe = false ∨ host.stderrPipe = false ∨
      host.start = none) :
    startServer config host runningServers serverID
      = { runningServers := runningServers, trace := [.fatal], exited := true } ∧
    registered config host runningServers serverID = none := by
  have hl := launch_fatal config host serverID server hs hj hf
  constructor
  · simp [startServer, hl]
  · simp [registered, hl]

/-- C12 amended, at the sample instance on a host whose stdin pipe cannot be opened. -/
theorem C12_witness_pipe_failure :
    startServer sampleConfig noPipeHost [("server-1".toList, oldCmd)] "server-1".toList
      = { runningServers := [("server-1".toList, oldCmd)], trace := [.fatal], exited := true } :=
  (C12_startServer_failed_start_is_fatal sampleConfig noPipeHost
    [("server-1".toList, oldCmd)] "server-1".toList sampleServer (by decide) (by decide)
    (Or.inl rfl)).1

theorem forwardInput_cons_stop (pid : Nat) (text : Str) (rest : List Str)
    (h : EqualFold text "stop".toList = true) :
    forwardInput pid (text :: rest) = [Effect.write pid "stop\n".toList] := by
  rw [forwardInput, if_pos h]

theorem forwardInput_cons_other (pid : Nat) (text : Str) (rest : List Str)
    (h : EqualFold text "stop".toList = false) :
    forwardInput pid (text :: rest)
      = Effect.write pid (text ++ "\n".toList) :: forwardInput pid rest := by
  rw [forwardInput, if_neg (by rw [h]; exact Bool.false_ne_true)]

theorem forwardInput_eq (pid : Nat) (lines : List Str) :
    forwardInput pid lines
      = (lines.takeWhile (fun l => !EqualFold l "stop".toList)).map
          (fun l => Effect.write pid (l ++ "\n".toList))
        ++ (if lines.any (fun l => EqualFold l "stop".toList) then
              [Effect.write pid "stop\n".toList] else []) := by
  induction lines with
  | nil => rfl
  | cons text rest ih =>
    cases h : EqualFold text "stop".toList with
    | true =>
      rw [forwardInput_cons_stop pid text rest h]
      simp only [List.takeWhile_cons, h, Bool.not_true, Bool.false_eq_true, if_false,
        List.any_cons, Bool.true_or, if_true, List.map_nil, List.nil_append]
    | false =>
      rw [forwardInput_cons_other pid text rest h, ih]
      simp only [List.takeWhile_cons, h, Bool.not_false, if_true, List.any_cons,
        Bool.false_or, List.map_cons, List.cons_append]

theorem filter_isWrite_forwardInput (pid : Nat) (lines : List Str) :
    (forwardInput pid lines).filter Effect.isWrite = forwardInput pid lines := by
  induction lines with
  | nil => rfl
  | cons text rest ih =>
    cases h : EqualFold text "stop".toList with
    | true =>
      rw [forwardInput_cons_stop pid text rest h]
      rfl
    | false =>
      rw [forwardInput_cons_other pid text rest h, List.filter_cons_of_pos (by rfl), ih]

theorem foldsTo_s (c : Char) :
    foldsTo 's' c = true ↔ (c = 's' ∨ c = 'S' ∨ c = Char.ofNat 0x17F) := by
  have hs : 's'.toUpper = 'S' := by decide
  have h1 : ('s' = 'k') = False := by decide
  unfold foldsTo
  rw [hs]
  simp only [h1, Bool.or_eq_true, Bool.and_eq_true, decide_eq_true_eq, decide_False,
    Bool.false_eq_true, false_and, or_false, true_and, decide_True]
  tauto

theorem foldsTo_plain (t u c : Char) (hu : t.toUpper = u) (h1 : (t = 's') = False)
    (h2 : (t = 'k') = False) :
    foldsTo t c = true ↔ (c = t ∨ c = u) := by
  unfold foldsTo
  rw [hu]
  simp only [h1, h2, Bool.or_eq_true, Bool.and_eq_true, decide_eq_true_eq, decide_False,
    Bool.false_eq_true, false_and, or_false]

theorem EqualFold_stop_iff (text : Str) :
    EqualFold text "stop".toList = true ↔
      ∃ a b c d, text = [a, b, c, d] ∧ (a = 's' ∨ a = 'S' ∨ a = Char.ofNat 0x17F) ∧
        (b = 't' ∨ b = 'T') ∧ (c = 'o' ∨ c = 'O') ∧ (d = 'p' ∨ d = 'P') := by
  have hw : "stop".toList = ['s', 't', 'o', 'p'] := rfl
  have ht := fun c => foldsTo_plain 't' 'T' c (by decide) (by decide) (by decide)
  have ho := fun c => foldsTo_plain 'o' 'O' c (by decide) (by decide) (by decide)
  have hp := fun c => foldsTo_plain 'p' 'P' c (by decide) (by decide) (by decide)
  rw [hw]
  match text with
  | [] => simp [EqualFold]
  | [_] => simp [EqualFold]
  | [_, _] => simp [EqualFold]
  | [_, _, _] => simp [EqualFold]
  | [a, b, c, d] =>
    simp only [EqualFold, Bool.and_eq_true, foldsTo_s, ht, ho, hp, and_true]
    constructor
    · intro h
      exact ⟨a, b, c, d, rfl, h⟩
    · rintro ⟨a1, b1, c1, d1, he, h⟩
      simp only [List.cons.injEq, and_true] at he
      obtain ⟨rfl, rfl, rfl, rfl⟩ := he
      exact h
  | _ :: _ :: _ :: _ :: _ :: _ => simp [EqualFold]

/-- C13: for every finite sequence of caller input lines, the input loop of `startServer`
writes to the child's standard input each line that precedes the first line equal to
`stop` ignoring letter case, verbatim with a newline and in order, then, when there is
such a line, the literal `stop` with a newline, and nothing for any later line.  The
lines equal to `stop` ignoring letter case are, as `strings.EqualFold` decides, the four
letters spelled `s`, `S` or the long s (U+017F), then `t`/`T`, `o`/`O`, `p`/`P`.  These
writes are all the writes of a call of `startServer` that starts a child. -/
theorem C13_startServer_forwards_input_until_stop (pid : Nat) (lines : List Str) :
    forwardInput pid lines
      = (lines.takeWhile (fun l => !EqualFold l "stop".toList)).map
          (fun l => Effect.write pid (l ++ "\n".toList))
        ++ (if lines.any (fun l => EqualFold l "stop".toList) then
              [Effect.write pid "stop\n".toList] else []) ∧
    (∀ text : Str, EqualFold text "stop".toList = true ↔
      ∃ a b c d, text = [a, b, c, d] ∧ (a = 's' ∨ a = 'S' ∨ a = Char.ofNat 0x17F) ∧
        (b = 't' ∨ b = 'T') ∧ (c = 'o' ∨ c = 'O') ∧ (d = 'p' ∨ d = 'P')) ∧
    (∀ (config : Config) (host : Host) (runningServers : List (Str × Cmd)) (serverID : Str)
      (cmd : Cmd), (launch config host serverID).1 = .started cmd →
      (startServer config host runningServers serverID).trace.filter Effect.isWrite
        = forwardInput cmd.Pid host.input) := by
  refine ⟨forwardInput_eq pid lines, EqualFold_stop_iff, ?_⟩
  intro config host runningServers serverID cmd hl
  obtain ⟨_, _, _, _, _, _, hlaunch⟩ := launch_started config host serverID cmd hl
  simp [startServer, hlaunch, List.filter_append, filter_isWrite_forwardInput, Effect.isWrite]

/-- C13, at the sample host, where the caller types `list`, `STOP` and the child runs as
process 200. -/
theorem C13_witness_sample_input :
    (startServer sampleConfig (sampleHost 200) [] "server-1".toList).trace.filter Effect.isWrite
      = forwardInput (sampleCmd 200).Pid (sampleHost 200).input :=
  (C13_startServer_forwards_input_until_stop 0 []).2.2 sampleConfig (sampleHost 200) []
    "server-1".toList (sampleCmd 200) (by decide)

theorem ReplaceAll_of_cut_none (s old new : Str) (hold : old ≠ []) (h : cut old s = none) :
    ReplaceAll s old new = s := by
  unfold ReplaceAll
  by_cases he : old = new
  · simp [he]
  · simp only [he, hold, if_false]
    cases s with
    | nil => rfl
    | cons x xs => simp [replaceLoop, h]

/-- A template in which no placeholder of the match occurs is returned as it is: text
such as `$7` for an index beyond the groups stays in the output. -/
theorem substitute_of_no_placeholder (ms : List Str) (i : Nat) (template : Str)
    (h : ∀ j, i ≤ j → j < i + ms.length → cut (placeholder j) template = none) :
    substitute i ms template = template := by
  induction ms generalizing i with
  | nil => rfl
  | cons m rest ih =>
    have h0 : cut (placeholder i) template = none :=
      h i (Nat.le_refl _) (by simp)
    simp only [substitute]
    rw [ReplaceAll_of_cut_none template (placeholder i) m (by simp [placeholder]) h0]
    apply ih
    intro j hj1 hj2
    exact h j (by omega) (by simp only [List.length_cons]; omega)

/-- A rule of the earlier table whose pattern is not a pattern of the file is still in
the table after the lines of the file are loaded. -/
theorem mapGet_loadLines_other (m : List (Str × Str)) (lines : List Str) (p : Str)
    (h : p ∉ (lines.filter hasHash).map patternOf) :
    mapGet (loadLines m lines) p = mapGet m p := by
  induction lines generalizing m with
  | nil => rfl
  | cons line rest ih =>
    have hstep : loadLines m (line :: rest) = loadLines (loadLine m line) rest := rfl
    rw [hstep]
    cases hh : hasHash line with
    | true =>
      simp only [List.filter_cons, hh, if_true, List.map_cons, List.mem_cons, not_or] at h
      rw [ih _ h.2, loadLine_of_hasHash m line hh, mapGet_mapSet_other _ _ _ _ h.1]
    | false =>
      simp only [List.filter_cons, hh, Bool.false_eq_true, if_false] at h
      rw [ih _ h, loadLine_of_not_hasHash m line hh]

/-! ## Claims on the lock, on placeholders beyond the groups, on reloads and on identifiers -/

/-- C14, the lock discipline of the three functions in program order.  In `startServer`
and in `stopServer` every write and read of `runningServers` happens between
`serverMutex.Lock()` and `serverMutex.Unlock()`, for every input.  In `stopServerMenu`
this fails for every input: the `len` of line 799 (and, for a non-empty registry, the
`len` of line 806 and the `range` of line 809) reads the map without the lock. -/
theorem C14_stopServerMenu_reads_registry_without_lock :
    (∀ (config : Config) (host : Host) (serverID : Str),
      underLock false (startServerAccesses config host serverID) = true) ∧
    underLock false stopServerAccesses = true ∧
    (∀ (config : Config) (runningServers : List (Str × Cmd)) (choice : Int),
      underLock false (stopServerMenuAccesses config runningServers choice) = false) ∧
    stopServerMenuAccesses sampleConfig [("server-1".toList, oldCmd)] 1
      = [.read 799, .read 806, .read 809, .lock, .read 509, .unlock] := by
  refine ⟨?_, rfl, ?_, by decide⟩
  · intro config host serverID
    unfold startServerAccesses
    cases (launch config host serverID).1 <;> rfl
  · intro config runningServers choice
    unfold stopServerMenuAccesses
    split <;> rfl

set_option maxRecDepth 100000 in
/-- C15, evaluation of the code where it departs from the claim.  The progress rule has
one capture group, so its template `进度 $1% ($2) [$10]` names two indices beyond the
groups.  `translateLog` leaves `$2` as it is, but rewrites `$10` into the text of group 1
followed by `0`: the two indices are not treated in the same way, and `$10` is neither
left literal nor replaced by the empty string. -/
theorem C15_translateLog_splits_multi_digit_placeholder :
    goRegexp.submatch progressRule.1 "Preparing spawn area: 42%".toList
      = some ["Preparing spawn area: 42%".toList, "42".toList] ∧
    translateLog goRegexp [progressRule] "Preparing spawn area: 42%".toList
      = .ret "进度 42% ($2) [420]".toList ∧
    translateLog goRegexp [progressRule] "Preparing spawn area: 42%".toList
      ≠ .ret "进度 42% ($2) [$10]".toList ∧
    translateLog goRegexp [progressRule] "Preparing spawn area: 42%".toList
      ≠ .ret "进度 42% () []".toList := by
  decide

set_option maxRecDepth 100000 in
/-- C16, evaluation of the code where it departs from the claim.  The table holds a rule
of the user; the rule file is the default file, which does not contain that rule.  After
`loadTranslationDict` the table holds the four rules of the file and still the user's
rule, which `translateLog` goes on applying; it is not the table that the file alone
gives. -/
theorem C16_loadTranslationDict_keeps_earlier_rules :
    customRule.1 ∉ (defaultDict.filter hasHash).map patternOf ∧
    (loadTranslationDict ⟨some defaultDict, true, true⟩ [customRule]).2
      = customRule :: defaultRules ∧
    mapGet (loadTranslationDict ⟨some defaultDict, true, true⟩ [customRule]).2 customRule.1
      = some customRule.2 ∧
    (loadTranslationDict ⟨some defaultDict, true, true⟩ []).2 = defaultRules ∧
    (loadTranslationDict ⟨some defaultDict, true, true⟩ [customRule]).2
      ≠ (loadTranslationDict ⟨some defaultDict, true, true⟩ []).2 ∧
    translateLog goRegexp (loadTranslationDict ⟨some defaultDict, true, true⟩ [customRule]).2
      "Server started".toList = .ret "服务器已启动".toList := by
  decide

/-- C17, evaluation of the code where it departs from the claim.  After two instances
are created and the first is deleted, the store holds one instance, `server-2`; the
identifier generated for the next instance is again `server-2`, a key of the store, and
creating the instance replaces the existing one. -/
theorem C17_createServerInstance_reuses_identifier :
    Reachable storeAfterDelete ∧
    newServerID storeAfterDelete = "server-2".toList ∧
    newServerID storeAfterDelete ∈ mapKeys storeAfterDelete.ServerInstalls ∧
    (mapGet storeAfterDelete.ServerInstalls "server-2".toList).map (fun i => i.Name)
      = some "forge".toList ∧
    (mapGet (createServerInstance storeAfterDelete
        { sampleServer with Name := "fabric".toList }).ServerInstalls
      "server-2".toList).map (fun i => i.Name) = some "fabric".toList ∧
    (createServerInstance storeAfterDelete
      { sampleServer with Name := "fabric".toList }).ServerInstalls.length = 1 := by
  refine ⟨?_, by decide, by decide, by decide, by decide, by decide⟩
  exact Reachable.delete _ _
    (Reachable.create _ _ (Reachable.create _ _ (Reachable.empty _ _))) (by decide)

end EMCM
